import Mathlib

/-!
The modified-UTF-8 text codec of javadatastream.

A shallow embedding of `writer.go` (`DataOutputStream`) and `reader.go`
(`DataInputStream`): the text operations `WriteUTF`, `ReadUTF` and the
fixed-width operations, over an in-memory byte buffer and, in the second
part of the definitions, over any writer and any source.

Conventions.
* A byte is a `Nat` below 256; a Go `string` is the list of its bytes; a
  `rune` is a `Nat` (the codec only ever holds non-negative runes).
* Fixed-width Go arithmetic is written with an explicit modulus: `byte(x)` is
  `x % 256`, `uint16` arithmetic is taken `% 65536`.
* The sink and the source are `bytes.Buffer`s: a write appends and never
  fails, `io.ReadFull` takes bytes from the front.
* A Go run-time panic (index out of range) is the outcome `panic`.
* Loops are unrolled by a fuel argument; the outcome `outOfFuel` marks a loop
  cut short by the fuel and is never a result of the Go code.
-/

namespace JavaDataStream

/-! ## Go built-in string conversions -/

/-- The rune `utf8.RuneError` (U+FFFD). -/
def RuneError : Nat := 0xFFFD

/-- Go's UTF-8 decoding of the first rune of a non-empty string, as done by
`for range` and by the conversion `[]rune(s)`: the rune and the number of
bytes it takes. An invalid or incomplete encoding yields `RuneError` with
width 1. -/
def decodeRune : List Nat → Nat × Nat
  | [] => (RuneError, 0)
  | b0 :: rest =>
    if b0 < 0x80 then (b0, 1)
    else if b0 < 0xC2 ∨ 0xF4 < b0 then (RuneError, 1)
    else if b0 < 0xE0 then
      match rest with
      | b1 :: _ =>
        if 0x80 ≤ b1 ∧ b1 ≤ 0xBF then
          (((b0 &&& 0x1F) <<< 6) ||| (b1 &&& 0x3F), 2)
        else (RuneError, 1)
      | _ => (RuneError, 1)
    else if b0 < 0xF0 then
      let lo := if b0 = 0xE0 then 0xA0 else 0x80
      let hi := if b0 = 0xED then 0x9F else 0xBF
      match rest with
      | b1 :: b2 :: _ =>
        if lo ≤ b1 ∧ b1 ≤ hi ∧ 0x80 ≤ b2 ∧ b2 ≤ 0xBF then
          (((b0 &&& 0x0F) <<< 12) ||| ((b1 &&& 0x3F) <<< 6) ||| (b2 &&& 0x3F), 3)
        else (RuneError, 1)
      | _ => (RuneError, 1)
    else
      let lo := if b0 = 0xF0 then 0x90 else 0x80
      let hi := if b0 = 0xF4 then 0x8F else 0xBF
      match rest with
      | b1 :: b2 :: b3 :: _ =>
        if lo ≤ b1 ∧ b1 ≤ hi ∧ 0x80 ≤ b2 ∧ b2 ≤ 0xBF ∧ 0x80 ≤ b3 ∧ b3 ≤ 0xBF then
          (((b0 &&& 0x07) <<< 18) ||| ((b1 &&& 0x3F) <<< 12) |||
            ((b2 &&& 0x3F) <<< 6) ||| (b3 &&& 0x3F), 4)
        else (RuneError, 1)
      | _ => (RuneError, 1)

/-- The loop of `[]rune(s)`: decode one rune, drop its bytes, go on. Every
rune takes at least one byte, so `s.length` rounds consume the string. -/
def runesAux : Nat → List Nat → List Nat
  | 0, _ => []
  | _ + 1, [] => []
  | fuel + 1, b :: rest =>
    (decodeRune (b :: rest)).1 ::
      runesAux fuel ((b :: rest).drop (decodeRune (b :: rest)).2)

/-- Go's conversion `[]rune(s)`. -/
def runesOfString (s : List Nat) : List Nat := runesAux s.length s

/-- Go's UTF-8 encoding of one rune, as done by the conversion
`string([]rune)`: a surrogate half or a rune above U+10FFFF is replaced by
`RuneError`, whose encoding is EF BF BD. -/
def encodeRune (r : Nat) : List Nat :=
  if r ≤ 0x7F then [r]
  else if r ≤ 0x7FF then [0xC0 ||| (r >>> 6), 0x80 ||| (r &&& 0x3F)]
  else if 0x10FFFF < r ∨ (0xD800 ≤ r ∧ r ≤ 0xDFFF) then [0xEF, 0xBF, 0xBD]
  else if r ≤ 0xFFFF then
    [0xE0 ||| (r >>> 12), 0x80 ||| ((r >>> 6) &&& 0x3F), 0x80 ||| (r &&& 0x3F)]
  else
    [0xF0 ||| (r >>> 18), 0x80 ||| ((r >>> 12) &&& 0x3F),
      0x80 ||| ((r >>> 6) &&& 0x3F), 0x80 ||| (r &&& 0x3F)]

/-- Go's conversion `string(rs)` of a rune slice. -/
def stringOfRunes : List Nat → List Nat
  | [] => []
  | r :: rs => encodeRune r ++ stringOfRunes rs

/-! ## Outcomes -/

/-- The error values the two streams return. -/
inductive Err where
  /-- `io.EOF`: the source was empty when bytes were asked for. -/
  | eof
  /-- `io.ErrUnexpectedEOF`: the source ended inside the bytes asked for. -/
  | unexpectedEOF
  /-- `fmt.Errorf("r.ReadUShort failed with: %w", err)`. -/
  | readUShortFailed (cause : Err)
  /-- `fmt.Errorf("unable to write utf: string exceeds length")`. -/
  | lengthExceeded
  /-- `errors.New("malformed input: partial character at end")`. -/
  | malformedPartial
  /-- `fmt.Errorf("malformed input around byte %d", count)`. -/
  | malformedAt (count : Nat)
  /-- `fmt.Errorf("malformed input around byte ")`. -/
  | malformedAround
  /-- An error value of the underlying `io.Reader` or `io.Writer` other
  than the ones above, told apart by `code`. -/
  | underlying (code : Nat)
  deriving DecidableEq, Repr

/-- The malformed-input errors of `ReadUTF`. -/
def Err.isMalformed : Err → Bool
  | .malformedPartial => true
  | .malformedAt _ => true
  | .malformedAround => true
  | _ => false

/-- How a call of a reading function ends: a value and the rest of the
source, an error value, a run-time panic, or (model only) spent fuel. -/
inductive Outcome (α : Type) where
  | ok (v : α) (rest : List Nat)
  | error (e : Err)
  | panic
  | outOfFuel
  deriving DecidableEq, Repr

/-- How a local loop ends: normally with its variables, by a run-time
panic, or (model only) by spent fuel. -/
inductive Run (α : Type) where
  | done (v : α)
  | panic
  | outOfFuel
  deriving DecidableEq, Repr

/-- How a call of a writing function ends: it returns `err` (`none` is Go's
`nil`) with the sink holding `sink`, or it panics (the sink is untouched at
every panic site of this package), or (model only) the fuel is spent. -/
inductive WOutcome where
  | ret (err : Option Err) (sink : List Nat)
  | panic
  | outOfFuel
  deriving DecidableEq, Repr

/-! ## writer.go -/

/-- The statement `buf[i] = v` on a slice: `none` is the index-out-of-range
panic. -/
def setAt (buf : List Nat) (i v : Nat) : Option (List Nat) :=
  if i < buf.length then some (buf.set i v) else none

/-- `DataOutputStream.WriteUShort` on a buffer sink: the two bytes
`byte(v >> 8)`, `byte(v >> 0)` are appended; the write cannot fail. -/
def WriteUShort (v : Nat) (sink : List Nat) : WOutcome :=
  .ret none (sink ++ [(v >>> 8) % 256, (v >>> 0) % 256])

/-- The first loop of `WriteUTF` (writer.go 132-138), from index `i`:
`for ; i < len(s); i++ { c := chars[i]; if c >= 0x80 || c == 0 { break };
buf[i] = byte(c) }`. Returns the index at which it stops and the buffer. -/
def utfFastLoop (n : Nat) (chars : List Nat) :
    Nat → Nat → List Nat → Run (Nat × List Nat)
  | 0, i, buf => if i < n then .outOfFuel else .done (i, buf)
  | fuel + 1, i, buf =>
    if i < n then
      match chars[i]? with
      | none => .panic
      | some c =>
        if c ≥ 0x80 ∨ c = 0 then .done (i, buf)
        else
          match setAt buf i (c % 256) with
          | none => .panic
          | some buf1 => utfFastLoop n chars fuel (i + 1) buf1
    else .done (i, buf)

/-- The second loop of `WriteUTF` (writer.go 140-155), from index `i` with
write position `count`. Returns the final `count` and the buffer. -/
def utfSlowLoop (n : Nat) (chars : List Nat) :
    Nat → Nat → Nat → List Nat → Run (Nat × List Nat)
  | 0, i, count, buf => if i < n then .outOfFuel else .done (count, buf)
  | fuel + 1, i, count, buf =>
    if i < n then
      match chars[i]? with
      | none => .panic
      | some c =>
        if c < 0x80 ∧ c ≠ 0 then
          match setAt buf count (c % 256) with
          | none => .panic
          | some buf1 => utfSlowLoop n chars fuel (i + 1) (count + 1) buf1
        else if c ≥ 0x800 then
          match setAt buf count ((0xE0 ||| ((c >>> 12) &&& 0x0F)) % 256) with
          | none => .panic
          | some buf1 =>
            match setAt buf1 (count + 1) ((0x80 ||| ((c >>> 6) &&& 0x3F)) % 256) with
            | none => .panic
            | some buf2 =>
              match setAt buf2 (count + 2) ((0x80 ||| (c &&& 0x3F)) % 256) with
              | none => .panic
              | some buf3 => utfSlowLoop n chars fuel (i + 1) (count + 3) buf3
        else
          match setAt buf count ((0xC0 ||| ((c >>> 6) &&& 0x1F)) % 256) with
          | none => .panic
          | some buf1 =>
            match setAt buf1 (count + 1) ((0x80 ||| (c &&& 0x3F)) % 256) with
            | none => .panic
            | some buf2 => utfSlowLoop n chars fuel (i + 1) (count + 2) buf2
    else .done (count, buf)

/-- `DataOutputStream.WriteUTF` on a buffer sink. `s` is the Go string (its
bytes), `len(s)` its byte length, `chars` the slice `[]rune(s)`, `buf` the
slice `make([]byte, len(s))`. After the loops `length` is `len(buf)`, the
prefix is `uint16(length)` and the whole of `buf` is written. -/
def WriteUTF (s : List Nat) (sink : List Nat) : WOutcome :=
  if s.length > 65535 then .ret (some .lengthExceeded) sink
  else
    let buf := List.replicate s.length 0
    let chars := runesOfString s
    match utfFastLoop s.length chars s.length 0 buf with
    | .panic => .panic
    | .outOfFuel => .outOfFuel
    | .done (i, buf1) =>
      match utfSlowLoop s.length chars s.length i 0 buf1 with
      | .panic => .panic
      | .outOfFuel => .outOfFuel
      | .done (_, buf2) =>
        let length := buf2.length
        if length > 65535 then .ret (some .lengthExceeded) sink
        else
          match WriteUShort (length % 65536) sink with
          | .ret none sink1 => .ret none (sink1 ++ buf2)
          | other => other

/-! ## reader.go -/

/-- The call `io.ReadFull(r.r, p)` with `len(p) = n` on a buffer source: the
`n` bytes read and the rest of the source. Asking for no byte succeeds; an
empty source gives `io.EOF`, a source shorter than `n` gives
`io.ErrUnexpectedEOF`. -/
def ReadFull (src : List Nat) (n : Nat) : Outcome (List Nat) :=
  if n = 0 then .ok [] src
  else if src.length = 0 then .error .eof
  else if src.length < n then .error .unexpectedEOF
  else .ok (src.take n) (src.drop n)

/-- `DataInputStream.ReadUShort`: two bytes, big-endian,
`uint16(buf2[1]) | uint16(buf2[0])<<8`; an error of the source is wrapped. -/
def ReadUShort (src : List Nat) : Outcome Nat :=
  match ReadFull src 2 with
  | .ok buf2 rest => .ok ((buf2.getD 1 0 ||| (buf2.getD 0 0 <<< 8)) % 65536) rest
  | .error e => .error (.readUShortFailed e)
  | .panic => .panic
  | .outOfFuel => .outOfFuel

/-- The scanning loop of `ReadUTF` (reader.go 151-186). `count` is a
`uint16`, so `count += 2`, `count += 3` and `count - 1`, `count - 2` are taken
modulo 65536; `c2` and `c3` are bytes, so `(c2 & 0x3F) << 6` is taken modulo
256. `cArr` is the rune slice and `cArrCount` the number of runes stored.
The result is the slice `cArr[:cArrCount]`. -/
def utfScanLoop (utflen : Nat) (bArr : List Nat) (rest : List Nat) :
    Nat → Nat → Nat → List Nat → Outcome (List Nat)
  | 0, count, cArrCount, cArr =>
    if count < utflen then .outOfFuel
    else if cArrCount ≤ cArr.length then .ok (cArr.take cArrCount) rest else .panic
  | fuel + 1, count, cArrCount, cArr =>
    if count < utflen then
      match bArr[count]? with
      | none => .panic
      | some b =>
        let c := b &&& 0xFF
        if c >>> 4 ≤ 7 then
          match setAt cArr cArrCount c with
          | none => .panic
          | some cArr1 =>
            utfScanLoop utflen bArr rest fuel ((count + 1) % 65536) (cArrCount + 1) cArr1
        else if c >>> 4 = 12 ∨ c >>> 4 = 13 then
          let count1 := (count + 2) % 65536
          if count1 > utflen then .error .malformedPartial
          else
            match bArr[(count1 + 65536 - 1) % 65536]? with
            | none => .panic
            | some c2 =>
              if c2 &&& 0xC0 ≠ 0x80 then .error (.malformedAt count1)
              else
                match setAt cArr cArrCount (((c &&& 0x1F) <<< 6) ||| (c2 &&& 0x3F)) with
                | none => .panic
                | some cArr1 =>
                  utfScanLoop utflen bArr rest fuel count1 (cArrCount + 1) cArr1
        else if c >>> 4 = 14 then
          let count1 := (count + 3) % 65536
          if count1 > utflen then .error .malformedPartial
          else
            match bArr[(count1 + 65536 - 2) % 65536]? with
            | none => .panic
            | some c2 =>
              match bArr[(count1 + 65536 - 1) % 65536]? with
              | none => .panic
              | some c3 =>
                if c2 &&& 0xC0 ≠ 0x80 ∨ c3 &&& 0xC0 ≠ 0x80 then .error .malformedAround
                else
                  match setAt cArr cArrCount
                      (((c &&& 0x0F) <<< 12) ||| (((c2 &&& 0x3F) <<< 6) % 256) |||
                        (c3 &&& 0x3F)) with
                  | none => .panic
                  | some cArr1 =>
                    utfScanLoop utflen bArr rest fuel count1 (cArrCount + 1) cArr1
        else .error .malformedAround
    else if cArrCount ≤ cArr.length then .ok (cArr.take cArrCount) rest else .panic

/-- `DataInputStream.ReadUTF` up to the slice `cArr[:cArrCount]` it converts:
the prefix `utflen` is read by `ReadUShort`, the body `bArr` by `io.ReadFull`,
and `cArr` is `make([]rune, utflen*3)` with the product taken in `uint16`.
Every round of the loop moves `count` forward, so `utflen` rounds suffice. -/
def ReadUTFRunes (src : List Nat) : Outcome (List Nat) :=
  match ReadUShort src with
  | .error e => .error e
  | .panic => .panic
  | .outOfFuel => .outOfFuel
  | .ok utflen rest =>
    match ReadFull rest utflen with
    | .error e => .error e
    | .panic => .panic
    | .outOfFuel => .outOfFuel
    | .ok bArr rest1 =>
      let cArr := List.replicate ((utflen * 3) % 65536) 0
      utfScanLoop utflen bArr rest1 utflen 0 0 cArr

/-- `DataInputStream.ReadUTF`: the Go string `string(cArr[:cArrCount])`. -/
def ReadUTF (src : List Nat) : Outcome (List Nat) :=
  match ReadUTFRunes src with
  | .ok runes rest => .ok (stringOfRunes runes) rest
  | .error e => .error e
  | .panic => .panic
  | .outOfFuel => .outOfFuel

/-! ## The text format as the specification words it -/

/-- The encoded form of one 16-bit code unit (specification, section 4.2,
encoding step 1). -/
def specEncodeUnit (c : Nat) : List Nat :=
  if c ≠ 0 ∧ c < 0x80 then [c]
  else if c < 0x800 then [0xC0 ||| ((c >>> 6) &&& 0x1F), 0x80 ||| (c &&& 0x3F)]
  else [0xE0 ||| ((c >>> 12) &&& 0x0F), 0x80 ||| ((c >>> 6) &&& 0x3F), 0x80 ||| (c &&& 0x3F)]

/-- The encoded body of a text: the forms of its code units, in order. -/
def specEncodeBody : List Nat → List Nat
  | [] => []
  | c :: t => specEncodeUnit c ++ specEncodeBody t

/-- The encoded byte length of a text. -/
def specEncodedLength (t : List Nat) : Nat := (specEncodeBody t).length

/-- The bytes the specification has the encoder write: the length as a
big-endian 16-bit prefix, then the body; `none` is LengthExceeded. -/
def specWriteUTF (t : List Nat) : Option (List Nat) :=
  if specEncodedLength t > 65535 then none
  else some ([specEncodedLength t >>> 8, specEncodedLength t &&& 0xFF] ++ specEncodeBody t)

/-- The code units of a body that is a concatenation of well-formed forms
(specification, section 4.2, decoding step 2); `none` when the body is not
such a concatenation. The first argument bounds the number of forms. -/
def specDecodeBody : Nat → List Nat → Option (List Nat)
  | _, [] => some []
  | 0, _ :: _ => none
  | fuel + 1, lead :: rest =>
    if lead < 0x80 then
      (specDecodeBody fuel rest).map (fun t => lead :: t)
    else if lead >>> 5 = 0b110 then
      match rest with
      | cont :: rest1 =>
        if cont >>> 6 = 0b10 then
          (specDecodeBody fuel rest1).map
            (fun t => (((lead &&& 0x1F) <<< 6) ||| (cont &&& 0x3F)) :: t)
        else none
      | _ => none
    else if lead >>> 4 = 0b1110 then
      match rest with
      | c2 :: c3 :: rest1 =>
        if c2 >>> 6 = 0b10 ∧ c3 >>> 6 = 0b10 then
          (specDecodeBody fuel rest1).map
            (fun t => (((lead &&& 0x0F) <<< 12) ||| ((c2 &&& 0x3F) <<< 6) ||| (c3 &&& 0x3F)) :: t)
        else none
      | _ => none
    else none

/-! ## The sink and the source as parameters

`DataOutputStream` holds an `io.Writer` and `DataInputStream` an `io.Reader`.
The operations below take them as arguments: `wr p sink` is the call
`Write(p)` on a sink that holds `sink`, and `rf src n` is the call
`io.ReadFull(r.r, p)` with `len(p) = n` on a source that holds `src`. -/

/-- An `io.Writer`. -/
abbrev Writer := List Nat → List Nat → WOutcome

/-- An `io.Reader` under `io.ReadFull`. -/
abbrev ReadFullFn := List Nat → Nat → Outcome (List Nat)

/-- The writer of a `bytes.Buffer`: it appends and returns `nil`. -/
def bufWrite : Writer := fun p sink => .ret none (sink ++ p)

/-- A writer that accepts nothing and fails with `e`. -/
def failingWrite (e : Err) : Writer := fun _ sink => .ret (some e) sink

/-- A source that holds the bytes `src` and fails with `e`, not with an
end-of-file error, when asked for more bytes than it holds. -/
def ReadFullFailing (e : Err) : ReadFullFn := fun src n =>
  if n = 0 then .ok [] src
  else if src.length < n then .error e
  else .ok (src.take n) (src.drop n)

/-- A value conversion applied to a successful outcome (`return T(v), nil`);
an error, a panic and spent fuel pass through unchanged. -/
def Outcome.map {α β : Type} (f : α → β) : Outcome α → Outcome β
  | .ok v rest => .ok (f v) rest
  | .error e => .error e
  | .panic => .panic
  | .outOfFuel => .outOfFuel

/-- The Go conversion `int16(v)` of an unsigned value. -/
def int16 (v : Nat) : Int :=
  if v % 65536 < 32768 then (v % 65536 : Nat) else ((v % 65536 : Nat) : Int) - 65536

/-- The Go conversion `int32(v)` of an unsigned value. -/
def int32 (v : Nat) : Int :=
  if v % 4294967296 < 2147483648 then (v % 4294967296 : Nat)
  else ((v % 4294967296 : Nat) : Int) - 4294967296

/-- The Go conversion `int64(v)` of an unsigned value. -/
def int64 (v : Nat) : Int :=
  if v % 18446744073709551616 < 9223372036854775808 then (v % 18446744073709551616 : Nat)
  else ((v % 18446744073709551616 : Nat) : Int) - 18446744073709551616

/-- The Go expression `byte(v >> k)` on a signed integer `v`: arithmetic
shift, then the low eight bits. -/
def byteShr (v : Int) (k : Nat) : Nat := ((v >>> k) % 256).toNat

/-! ### writer.go, the fixed-width operations -/

/-- `DataOutputStream.WriteByte`. -/
def WriteByte (wr : Writer) (b : Nat) (sink : List Nat) : WOutcome :=
  wr [b] sink

/-- `DataOutputStream.WriteBoolean`. -/
def WriteBoolean (wr : Writer) (v : Bool) (sink : List Nat) : WOutcome :=
  if v then wr [1] sink else wr [0] sink

/-- `DataOutputStream.WriteUShort` on any writer. -/
def WriteUShortTo (wr : Writer) (v : Nat) (sink : List Nat) : WOutcome :=
  wr [(v >>> 8) % 256, (v >>> 0) % 256] sink

/-- `DataOutputStream.WriteShort`, `v` an `int16`. -/
def WriteShort (wr : Writer) (v : Int) (sink : List Nat) : WOutcome :=
  wr [byteShr v 8, byteShr v 0] sink

/-- `DataOutputStream.WriteChar`: `chr := uint16(v)`, then
`wbuf[1] = byte(chr >> 8)`, `wbuf[0] = byte(chr >> 0)` and `wbuf[0:2]` is
written. -/
def WriteChar (wr : Writer) (v : Nat) (sink : List Nat) : WOutcome :=
  let chr := v % 65536
  wr [(chr >>> 0) % 256, (chr >>> 8) % 256] sink

/-- `DataOutputStream.WriteInt`, `v` an `int32`. -/
def WriteInt (wr : Writer) (v : Int) (sink : List Nat) : WOutcome :=
  wr [byteShr v 24, byteShr v 16, byteShr v 8, byteShr v 0] sink

/-- `DataOutputStream.WriteLong`, `v` an `int64`. -/
def WriteLong (wr : Writer) (v : Int) (sink : List Nat) : WOutcome :=
  wr [byteShr v 56, byteShr v 48, byteShr v 40, byteShr v 32,
    byteShr v 24, byteShr v 16, byteShr v 8, byteShr v 0] sink

/-- `DataOutputStream.WriteFloat`. The type `F` stands for `float32` and
`Float32bits` for `math.Float32bits`. -/
def WriteFloat {F : Type} (Float32bits : F → Nat) (wr : Writer) (v : F)
    (sink : List Nat) : WOutcome :=
  let bits := Float32bits v
  wr [(bits >>> 24) % 256, (bits >>> 16) % 256, (bits >>> 8) % 256, (bits >>> 0) % 256] sink

/-- `DataOutputStream.WriteDouble`. The type `F` stands for `float64` and
`Float64bits` for `math.Float64bits`. -/
def WriteDouble {F : Type} (Float64bits : F → Nat) (wr : Writer) (v : F)
    (sink : List Nat) : WOutcome :=
  let bits := Float64bits v
  wr [(bits >>> 56) % 256, (bits >>> 48) % 256, (bits >>> 40) % 256, (bits >>> 32) % 256,
    (bits >>> 24) % 256, (bits >>> 16) % 256, (bits >>> 8) % 256, (bits >>> 0) % 256] sink

/-- `DataOutputStream.WriteUTF` on any writer: as `WriteUTF`, with the prefix
written by `WriteUShortTo` and `buf` by the writer; an error of the first
write is returned at once. -/
def WriteUTFTo (wr : Writer) (s : List Nat) (sink : List Nat) : WOutcome :=
  if s.length > 65535 then .ret (some .lengthExceeded) sink
  else
    let buf := List.replicate s.length 0
    let chars := runesOfString s
    match utfFastLoop s.length chars s.length 0 buf with
    | .panic => .panic
    | .outOfFuel => .outOfFuel
    | .done (i, buf1) =>
      match utfSlowLoop s.length chars s.length i 0 buf1 with
      | .panic => .panic
      | .outOfFuel => .outOfFuel
      | .done (_, buf2) =>
        let length := buf2.length
        if length > 65535 then .ret (some .lengthExceeded) sink
        else
          match WriteUShortTo wr (length % 65536) sink with
          | .ret none sink1 => wr buf2 sink1
          | other => other

/-! ### reader.go, the fixed-width operations -/

/-- `DataInputStream.ReadByte`. -/
def ReadByte (rf : ReadFullFn) (src : List Nat) : Outcome Nat :=
  (rf src 1).map (fun buf1 => buf1.getD 0 0)

/-- `DataInputStream.ReadBoolean`: `buf1[0] != 0`. -/
def ReadBoolean (rf : ReadFullFn) (src : List Nat) : Outcome Bool :=
  (rf src 1).map (fun buf1 => decide (buf1.getD 0 0 ≠ 0))

/-- `DataInputStream.ReadUShort` on any source: an error `err` of
`io.ReadFull` is returned as
`fmt.Errorf("r.ReadUShort failed with: %w", err)`. -/
def ReadUShortFrom (rf : ReadFullFn) (src : List Nat) : Outcome Nat :=
  match rf src 2 with
  | .ok buf2 rest => .ok ((buf2.getD 1 0 ||| (buf2.getD 0 0 <<< 8)) % 65536) rest
  | .error e => .error (.readUShortFailed e)
  | .panic => .panic
  | .outOfFuel => .outOfFuel

/-- `DataInputStream.ReadShort`: `int16(v)` of `ReadUShort`. -/
def ReadShort (rf : ReadFullFn) (src : List Nat) : Outcome Int :=
  (ReadUShortFrom rf src).map int16

/-- `DataInputStream.ReadUInt`. -/
def ReadUInt (rf : ReadFullFn) (src : List Nat) : Outcome Nat :=
  (rf src 4).map (fun buf4 =>
    (buf4.getD 3 0 ||| (buf4.getD 2 0 <<< 8) ||| (buf4.getD 1 0 <<< 16) |||
      (buf4.getD 0 0 <<< 24)) % 4294967296)

/-- `DataInputStream.ReadInt`: `int32(v)` of `ReadUInt`. -/
def ReadInt (rf : ReadFullFn) (src : List Nat) : Outcome Int :=
  (ReadUInt rf src).map int32

/-- `DataInputStream.ReadULong`. -/
def ReadULong (rf : ReadFullFn) (src : List Nat) : Outcome Nat :=
  (rf src 8).map (fun buf8 =>
    (buf8.getD 7 0 ||| (buf8.getD 6 0 <<< 8) ||| (buf8.getD 5 0 <<< 16) |||
      (buf8.getD 4 0 <<< 24) ||| (buf8.getD 3 0 <<< 32) ||| (buf8.getD 2 0 <<< 40) |||
      (buf8.getD 1 0 <<< 48) ||| (buf8.getD 0 0 <<< 56)) % 18446744073709551616)

/-- `DataInputStream.ReadLong`: `int64(v)` of `ReadULong`. -/
def ReadLong (rf : ReadFullFn) (src : List Nat) : Outcome Int :=
  (ReadULong rf src).map int64

/-- `DataInputStream.ReadFloat`. The type `F` stands for `float32` and
`Float32frombits` for `math.Float32frombits`. -/
def ReadFloat {F : Type} (Float32frombits : Nat → F) (rf : ReadFullFn) (src : List Nat) :
    Outcome F :=
  (ReadUInt rf src).map Float32frombits

/-- `DataInputStream.ReadDouble`. The type `F` stands for `float64` and
`Float64frombits` for `math.Float64frombits`. -/
def ReadDouble {F : Type} (Float64frombits : Nat → F) (rf : ReadFullFn) (src : List Nat) :
    Outcome F :=
  (ReadULong rf src).map Float64frombits

/-- `DataInputStream.ReadChar`: `rune(v)` of `ReadUShort`. -/
def ReadChar (rf : ReadFullFn) (src : List Nat) : Outcome Nat :=
  (ReadUShortFrom rf src).map (fun v => v)

/-- `DataInputStream.ReadUTF` on any source, up to the slice
`cArr[:cArrCount]`: as `ReadUTFRunes`. -/
def ReadUTFRunesFrom (rf : ReadFullFn) (src : List Nat) : Outcome (List Nat) :=
  match ReadUShortFrom rf src with
  | .error e => .error e
  | .panic => .panic
  | .outOfFuel => .outOfFuel
  | .ok utflen rest =>
    match rf rest utflen with
    | .error e => .error e
    | .panic => .panic
    | .outOfFuel => .outOfFuel
    | .ok bArr rest1 =>
      let cArr := List.replicate ((utflen * 3) % 65536) 0
      utfScanLoop utflen bArr rest1 utflen 0 0 cArr

/-- `DataInputStream.ReadUTF` on any source. -/
def ReadUTFFrom (rf : ReadFullFn) (src : List Nat) : Outcome (List Nat) :=
  (ReadUTFRunesFrom rf src).map stringOfRunes

end JavaDataStream

namespace JavaDataStream

/-! ## Helper lemmas: Go string conversion of ASCII strings -/

theorem decodeRune_of_lt {b : Nat} (rest : List Nat) (h : b < 0x80) :
    decodeRune (b :: rest) = (b, 1) := by
  simp [decodeRune, h]

theorem runesAux_of_lt : ∀ (s : List Nat) (fuel : Nat), s.length ≤ fuel →
    (∀ b ∈ s, b < 0x80) → runesAux fuel s = s
  | [], 0, _, _ => rfl
  | [], _ + 1, _, _ => rfl
  | b :: rest, 0, hlen, _ => by simp at hlen
  | b :: rest, fuel + 1, hlen, hs => by
    have hb : b < 0x80 := hs b (List.mem_cons_self b rest)
    have hrest : ∀ x ∈ rest, x < 0x80 := fun x hx => hs x (List.mem_cons_of_mem b hx)
    have hlen1 : rest.length ≤ fuel := by simpa using hlen
    simp [runesAux, decodeRune_of_lt rest hb, runesAux_of_lt rest fuel hlen1 hrest]

theorem runesOfString_of_lt (s : List Nat) (hs : ∀ b ∈ s, b < 0x80) :
    runesOfString s = s :=
  runesAux_of_lt s s.length (Nat.le_refl _) hs

/-! ## Helper lemmas: the loops of `WriteUTF` -/

theorem setAt_append_cons (pre post : List Nat) (z v : Nat) :
    setAt (pre ++ z :: post) pre.length v = some (pre ++ v :: post) := by
  simp [setAt]

/-- On characters that are all in 1..0x7F the first loop copies them into
`buf` and stops at `len(s)`. -/
theorem utfFastLoop_ascii : ∀ (post pre bp bz : List Nat) (fuel : Nat),
    bp.length = pre.length → bz.length = post.length → post.length ≤ fuel →
    (∀ b ∈ post, 0 < b ∧ b < 0x80) →
    utfFastLoop (pre ++ post).length (pre ++ post) fuel pre.length (bp ++ bz) =
      .done ((pre ++ post).length, bp ++ post)
  | [], pre, bp, bz, fuel, _, hbz, _, _ => by
    have : bz = [] := List.length_eq_zero.mp (by simpa using hbz)
    subst this
    cases fuel <;> simp [utfFastLoop]
  | c :: post, pre, bp, bz, 0, _, _, hfuel, _ => by simp at hfuel
  | c :: post, pre, bp, bz, fuel + 1, hbp, hbz, hfuel, hs => by
    obtain ⟨z, bz1, rfl⟩ : ∃ z bz1, bz = z :: bz1 := by
      cases bz with
      | nil => simp at hbz
      | cons z bz1 => exact ⟨z, bz1, rfl⟩
    have hc : 0 < c ∧ c < 0x80 := hs c (List.mem_cons_self c post)
    have hpost : ∀ b ∈ post, 0 < b ∧ b < 0x80 :=
      fun b hb => hs b (List.mem_cons_of_mem c hb)
    have ih := utfFastLoop_ascii post (pre ++ [c]) (bp ++ [c]) bz1 fuel
      (by simp [hbp]) (by simpa using hbz) (by simpa using hfuel) hpost
    have hset : setAt (bp ++ z :: bz1) pre.length (c % 256) = some (bp ++ c :: bz1) := by
      rw [← hbp, Nat.mod_eq_of_lt (by omega)]
      exact setAt_append_cons bp bz1 z c
    have hne : ¬ (c ≥ 0x80 ∨ c = 0) := by omega
    simp only [List.append_assoc, List.singleton_append, List.length_append,
      List.length_singleton] at ih
    rw [utfFastLoop]
    simp only [List.length_append, List.length_cons, Nat.lt_add_right_iff_pos, Nat.succ_pos,
      if_true, List.getElem?_append_right (Nat.le_refl _), Nat.sub_self,
      List.getElem?_cons_zero, hne, if_false, hset]
    simpa [List.length_append] using ih

theorem utfSlowLoop_at_end (n : Nat) (chars : List Nat) (fuel count : Nat) (buf : List Nat) :
    utfSlowLoop n chars fuel n count buf = .done (count, buf) := by
  cases fuel <;> simp [utfSlowLoop]

/-- On a string of characters 1..0x7F of at most 65535 bytes `WriteUTF`
appends the big-endian length and the bytes of the string. -/
theorem WriteUTF_ascii (s sink : List Nat) (hs : ∀ b ∈ s, 0 < b ∧ b < 0x80)
    (hlen : s.length ≤ 65535) :
    WriteUTF s sink = .ret none (sink ++ [(s.length >>> 8) % 256, s.length % 256] ++ s) := by
  have hr : runesOfString s = s := runesOfString_of_lt s (fun b hb => (hs b hb).2)
  have hfast := utfFastLoop_ascii s [] [] (List.replicate s.length 0) s.length rfl
    (by simp) (Nat.le_refl _) hs
  simp only [List.nil_append, List.length_nil] at hfast
  have hlen1 : ¬ s.length > 65535 := by omega
  simp [WriteUTF, hr, hfast, utfSlowLoop_at_end, hlen1, WriteUShort,
    Nat.mod_eq_of_lt (show s.length < 65536 by omega)]

theorem utfFastLoop_break (n : Nat) (chars : List Nat) (fuel i : Nat) (buf : List Nat)
    (c : Nat) (hi : i < n) (hc : chars[i]? = some c) (hbrk : c ≥ 0x80 ∨ c = 0) :
    utfFastLoop n chars (fuel + 1) i buf = .done (i, buf) := by
  rw [utfFastLoop]
  simp only [hi, if_true, hc, hbrk]

/-- One round of the second loop on a character of the two-byte class. -/
theorem utfSlowLoop_step_two (n : Nat) (chars : List Nat) (fuel i count : Nat)
    (buf : List Nat) (c : Nat) (hi : i < n) (hc : chars[i]? = some c)
    (h1 : ¬ (c < 0x80 ∧ c ≠ 0)) (h3 : ¬ c ≥ 0x800) (hroom : count + 2 ≤ buf.length) :
    ∃ buf1 : List Nat, buf1.length = buf.length ∧
      utfSlowLoop n chars (fuel + 1) i count buf =
        utfSlowLoop n chars fuel (i + 1) (count + 2) buf1 := by
  refine ⟨(buf.set count ((0xC0 ||| ((c >>> 6) &&& 0x1F)) % 256)).set (count + 1)
    ((0x80 ||| (c &&& 0x3F)) % 256), by simp, ?_⟩
  rw [utfSlowLoop]
  have hr1 : count < buf.length := by omega
  have hr2 : count + 1 < buf.length := by omega
  simp only [hi, if_true, hc, h1, h3, if_false, setAt, hr1, hr2, List.length_set]

/-- A run of `m` characters of the two-byte class, with room in `buf`, takes
`m` rounds and moves `count` by `2 * m`. -/
theorem utfSlowLoop_run_two (n : Nat) (chars : List Nat) :
    ∀ (m fuel i count : Nat) (buf : List Nat), i + m ≤ n → count + 2 * m ≤ buf.length →
      (∀ k, i ≤ k → k < i + m → ∃ c, chars[k]? = some c ∧ ¬ (c < 0x80 ∧ c ≠ 0) ∧ ¬ c ≥ 0x800) →
      ∃ buf1 : List Nat, buf1.length = buf.length ∧
        utfSlowLoop n chars (fuel + m) i count buf =
          utfSlowLoop n chars fuel (i + m) (count + 2 * m) buf1
  | 0, fuel, i, count, buf, _, _, _ => ⟨buf, rfl, rfl⟩
  | m + 1, fuel, i, count, buf, hi, hroom, hc => by
    obtain ⟨c, hci, h1, h3⟩ := hc i (Nat.le_refl _) (by omega)
    obtain ⟨buf1, hlen1, hstep⟩ := utfSlowLoop_step_two n chars (fuel + m) i count buf c
      (by omega) hci h1 h3 (by omega)
    obtain ⟨buf2, hlen2, hrun⟩ := utfSlowLoop_run_two n chars m fuel (i + 1) (count + 2) buf1
      (by omega) (by omega) (fun k hk1 hk2 => hc k (by omega) (by omega))
    refine ⟨buf2, by omega, ?_⟩
    have e1 : fuel + (m + 1) = fuel + m + 1 := by omega
    have e2 : i + (m + 1) = i + 1 + m := by omega
    have e3 : count + 2 * (m + 1) = count + 2 + 2 * m := by omega
    rw [e1, e2, e3, hstep, hrun]

/-- A character of the two-byte class met with fewer than two bytes left in
`buf` makes the second loop index `buf` out of range. -/
theorem utfSlowLoop_panic_two (n : Nat) (chars : List Nat) (fuel i count : Nat)
    (buf : List Nat) (c : Nat) (hi : i < n) (hc : chars[i]? = some c)
    (h1 : ¬ (c < 0x80 ∧ c ≠ 0)) (h3 : ¬ c ≥ 0x800) (hfull : buf.length ≤ count + 1) :
    utfSlowLoop n chars (fuel + 1) i count buf = .panic := by
  rw [utfSlowLoop]
  have hr2 : ¬ count + 1 < buf.length := by omega
  by_cases hr1 : count < buf.length
  · simp only [hi, if_true, hc, h1, h3, if_false, setAt, hr1, hr2, List.length_set]
  · simp only [hi, if_true, hc, h1, h3, if_false, setAt, hr1]

/-- On a string of `n` NUL bytes, `1 ≤ n ≤ 65535`, `WriteUTF` panics: the
second loop writes two bytes per character into a `buf` of `n` bytes. -/
theorem WriteUTF_nuls_panic (n : Nat) (sink : List Nat) (hn : 0 < n) (hle : n ≤ 65535) :
    WriteUTF (List.replicate n 0) sink = .panic := by
  have hr : runesOfString (List.replicate n 0) = List.replicate n 0 :=
    runesOfString_of_lt _ (fun b hb => by rw [List.eq_of_mem_replicate hb]; decide)
  have hget : ∀ k, k < n → (List.replicate n 0)[k]? = some 0 :=
    fun k hk => List.getElem?_replicate_of_lt hk
  have hfast := utfFastLoop_break n (List.replicate n 0) (n - 1) 0
    (List.replicate n 0) 0 hn (hget 0 hn) (Or.inr rfl)
  obtain ⟨buf1, hlen1, hrun⟩ := utfSlowLoop_run_two n (List.replicate n 0) (n / 2)
    (n - 1 - n / 2 + 1) 0 0 (List.replicate n 0) (by omega)
    (by rw [List.length_replicate]; omega)
    (fun k _ hk => ⟨0, hget k (by omega), by decide, by decide⟩)
  have hpanic := utfSlowLoop_panic_two n (List.replicate n 0) (n - 1 - n / 2) (0 + n / 2)
    (0 + 2 * (n / 2)) buf1 0 (by omega) (hget _ (by omega)) (by decide) (by decide)
    (by rw [hlen1, List.length_replicate]; omega)
  rw [hpanic] at hrun
  have e1 : n - 1 + 1 = n := by omega
  have e2 : n - 1 - n / 2 + 1 + n / 2 = n := by omega
  rw [e1] at hfast
  rw [e2] at hrun
  have hlen : ¬ n > 65535 := by omega
  simp only [WriteUTF, List.length_replicate, hlen, if_false, hr, hfast, hrun]

/-! ## Helper lemmas: the scanning loop of `ReadUTF` -/

theorem land_ff_of_lt {b : Nat} (h : b < 0x80) : b &&& 0xFF = b := by
  have h8 : b < 2 ^ 8 := by norm_num; omega
  simpa using Nat.and_pow_two_sub_one_of_lt_two_pow h8

theorem shiftRight_four_le_of_lt {b : Nat} (h : b < 0x80) : b >>> 4 ≤ 7 := by
  rw [Nat.shiftRight_eq_div_pow]
  norm_num
  omega

theorem ReadUShort_cons_cons (hi lo : Nat) (src : List Nat) :
    ReadUShort (hi :: lo :: src) = .ok ((lo ||| (hi <<< 8)) % 65536) src := by
  have h : ¬ (src.length + 1 + 1 < 2) := by omega
  simp [ReadUShort, ReadFull, h]

theorem ReadFull_append (body rest : List Nat) :
    ReadFull (body ++ rest) body.length = .ok body rest := by
  cases body with
  | nil => simp [ReadFull]
  | cons b body =>
    have h : ¬ (body.length + 1 + rest.length < body.length + 1) := by omega
    simp [ReadFull, h, Nat.add_right_comm]

/-- The prefix and the body are taken off the source and the loop starts on
a zeroed rune slice of `uint16(utflen*3)` entries. -/
theorem ReadUTFRunes_of_body (hi lo : Nat) (body rest : List Nat) (L : Nat)
    (hL : (lo ||| (hi <<< 8)) % 65536 = L) (hlen : body.length = L) :
    ReadUTFRunes (hi :: lo :: (body ++ rest)) =
      utfScanLoop L body rest L 0 0 (List.replicate ((L * 3) % 65536) 0) := by
  subst hlen
  simp only [ReadUTFRunes, ReadUShort_cons_cons, hL, ReadFull_append]

/-- One round of the loop on a byte below 0x80. -/
theorem utfScanLoop_step_ascii (utflen : Nat) (bArr rest : List Nat)
    (fuel count cArrCount : Nat) (cArr : List Nat) (b : Nat)
    (hcount : count < utflen) (hutf : utflen ≤ 65535) (hb : bArr[count]? = some b)
    (hlt : b < 0x80) (hcap : cArrCount < cArr.length) :
    utfScanLoop utflen bArr rest (fuel + 1) count cArrCount cArr =
      utfScanLoop utflen bArr rest fuel (count + 1) (cArrCount + 1) (cArr.set cArrCount b) := by
  rw [utfScanLoop]
  simp only [hcount, if_true, hb, land_ff_of_lt hlt, shiftRight_four_le_of_lt hlt, setAt, hcap,
    Nat.mod_eq_of_lt (show count + 1 < 65536 by omega)]

/-- A run of `m` bytes below 0x80 from position `j`, with room in the rune
slice, takes `m` rounds and leaves the slice length as it was. -/
theorem utfScanLoop_run_ascii (utflen : Nat) (bArr rest : List Nat) (hutf : utflen ≤ 65535) :
    ∀ (m fuel j k : Nat) (cArr : List Nat), j + m ≤ utflen → k + m ≤ cArr.length →
      (∀ i, j ≤ i → i < j + m → ∃ b, bArr[i]? = some b ∧ b < 0x80) →
      ∃ cArr1 : List Nat, cArr1.length = cArr.length ∧
        utfScanLoop utflen bArr rest (fuel + m) j k cArr =
          utfScanLoop utflen bArr rest fuel (j + m) (k + m) cArr1
  | 0, fuel, j, k, cArr, _, _, _ => ⟨cArr, rfl, rfl⟩
  | m + 1, fuel, j, k, cArr, hj, hk, hb => by
    obtain ⟨b, hbj, hlt⟩ := hb j (Nat.le_refl _) (by omega)
    obtain ⟨cArr1, hlen1, hrun⟩ := utfScanLoop_run_ascii utflen bArr rest hutf m fuel (j + 1)
      (k + 1) (cArr.set k b) (by omega) (by simp; omega)
      (fun i h1 h2 => hb i (by omega) (by omega))
    refine ⟨cArr1, by simpa using hlen1, ?_⟩
    have hstep := utfScanLoop_step_ascii utflen bArr rest (fuel + m) j k cArr b
      (by omega) hutf hbj hlt (by omega)
    have e1 : fuel + (m + 1) = fuel + m + 1 := by omega
    have e2 : j + (m + 1) = j + 1 + m := by omega
    have e3 : k + (m + 1) = k + 1 + m := by omega
    rw [e1, e2, e3, hstep, hrun]

/-- A byte below 0x80 met with the rune slice full makes the loop index the
rune slice out of range. -/
theorem utfScanLoop_panic_full (utflen : Nat) (bArr rest : List Nat)
    (fuel count cArrCount : Nat) (cArr : List Nat) (b : Nat)
    (hcount : count < utflen) (hb : bArr[count]? = some b)
    (hlt : b < 0x80) (hfull : cArr.length ≤ cArrCount) :
    utfScanLoop utflen bArr rest (fuel + 1) count cArrCount cArr = .panic := by
  rw [utfScanLoop]
  have hr : ¬ cArrCount < cArr.length := by omega
  simp only [hcount, if_true, hb, land_ff_of_lt hlt, shiftRight_four_le_of_lt hlt, setAt, hr,
    if_false]

/-- A body that starts with more bytes below 0x80 than the rune slice has
entries makes the loop panic. -/
theorem utfScanLoop_panic_of_ascii (utflen : Nat) (bArr rest : List Nat)
    (hutf : utflen ≤ 65535) (fuel : Nat) (cArr : List Nat)
    (hcap : cArr.length + 1 ≤ utflen)
    (hb : ∀ i, i < cArr.length + 1 → ∃ b, bArr[i]? = some b ∧ b < 0x80) :
    utfScanLoop utflen bArr rest (fuel + 1 + cArr.length) 0 0 cArr = .panic := by
  obtain ⟨cArr1, hlen1, hrun⟩ := utfScanLoop_run_ascii utflen bArr rest hutf cArr.length
    (fuel + 1) 0 0 cArr (by omega) (by omega) (fun i _ h2 => hb i (by omega))
  obtain ⟨b, hbi, hlt⟩ := hb cArr.length (by omega)
  rw [hrun]
  simp only [Nat.zero_add]
  exact utfScanLoop_panic_full utflen bArr rest fuel cArr.length cArr.length cArr1 b
    (by omega) hbi hlt (by omega)

theorem ReadUTF_of_panic (src : List Nat) (h : ReadUTFRunes src = .panic) :
    ReadUTF src = .panic := by
  simp only [ReadUTF, h]

/-- A body of `L` bytes that starts with more bytes below 0x80 than
`uint16(L*3)` makes `ReadUTF` panic on its rune slice. -/
theorem ReadUTFRunes_panic_ascii (hi lo : Nat) (body rest : List Nat) (L : Nat)
    (hL : (lo ||| (hi <<< 8)) % 65536 = L) (hlen : body.length = L)
    (hcap : (L * 3) % 65536 < L)
    (hb : ∀ i, i < (L * 3) % 65536 + 1 → ∃ b, body[i]? = some b ∧ b < 0x80) :
    ReadUTFRunes (hi :: lo :: (body ++ rest)) = .panic := by
  have hutf : L ≤ 65535 := by omega
  rw [ReadUTFRunes_of_body hi lo body rest L hL hlen]
  have hpanic := utfScanLoop_panic_of_ascii L body rest hutf (L - 1 - (L * 3) % 65536)
    (List.replicate ((L * 3) % 65536) 0) (by rw [List.length_replicate]; omega)
    (by rw [List.length_replicate]; exact hb)
  rw [List.length_replicate] at hpanic
  have e : L - 1 - (L * 3) % 65536 + 1 + (L * 3) % 65536 = L := by omega
  rw [e] at hpanic
  exact hpanic

theorem land_c0_of_cont {c2 : Nat} (h : 0x80 ≤ c2 ∧ c2 < 0xC0) : c2 &&& 0xC0 = 0x80 := by
  obtain ⟨h1, h2⟩ := h
  interval_cases c2 <;> rfl

/-- One round of the loop on a well-formed two-byte form. -/
theorem utfScanLoop_step_two (utflen : Nat) (bArr rest : List Nat)
    (fuel count cArrCount : Nat) (cArr : List Nat) (b c2 : Nat)
    (hcount : count + 2 ≤ utflen) (hutf : utflen ≤ 65535) (hb : bArr[count]? = some b)
    (hlead : 0xC0 ≤ b ∧ b < 0xE0) (hb2 : bArr[count + 1]? = some c2)
    (hcont : 0x80 ≤ c2 ∧ c2 < 0xC0) (hcap : cArrCount < cArr.length) :
    ∃ cArr1 : List Nat, cArr1.length = cArr.length ∧
      utfScanLoop utflen bArr rest (fuel + 1) count cArrCount cArr =
        utfScanLoop utflen bArr rest fuel (count + 2) (cArrCount + 1) cArr1 := by
  refine ⟨cArr.set cArrCount (((b &&& 0x1F) <<< 6) ||| (c2 &&& 0x3F)), by simp, ?_⟩
  have hff : b &&& 0xFF = b := by
    have h8 : b < 2 ^ 8 := by norm_num; omega
    simpa using Nat.and_pow_two_sub_one_of_lt_two_pow h8
  have hsh : b >>> 4 = b / 16 := by rw [Nat.shiftRight_eq_div_pow]
  have h7 : ¬ b / 16 ≤ 7 := by omega
  have h12 : b / 16 = 12 ∨ b / 16 = 13 := by omega
  have hc1 : count < utflen := by omega
  have hmod : (count + 2) % 65536 = count + 2 := Nat.mod_eq_of_lt (by omega)
  have hidx : (count + 2 + 65536 - 1) % 65536 = count + 1 := by omega
  have hgt : ¬ count + 2 > utflen := by omega
  rw [utfScanLoop]
  simp only [hc1, if_true, hb, hff, hsh, h7, if_false, h12, hmod, hidx, hgt, hb2,
    land_c0_of_cont hcont, ne_eq, not_true_eq_false, setAt, hcap]

/-- With `utflen = 65535` a two-byte or three-byte lead byte in the last
position makes `count` wrap around and the loop index the body out of
range. -/
theorem utfScanLoop_wrap_panic (bArr rest : List Nat) (fuel cArrCount : Nat)
    (cArr : List Nat) (b : Nat) (hlen : bArr.length = 65535)
    (hb : bArr[65534]? = some b) (hlead : 0xC0 ≤ b ∧ b < 0xF0) :
    utfScanLoop 65535 bArr rest (fuel + 1) 65534 cArrCount cArr = .panic := by
  have hff : b &&& 0xFF = b := by
    have h8 : b < 2 ^ 8 := by norm_num; omega
    simpa using Nat.and_pow_two_sub_one_of_lt_two_pow h8
  have hsh : b >>> 4 = b / 16 := by rw [Nat.shiftRight_eq_div_pow]
  have hnone : bArr[65535]? = none := List.getElem?_eq_none (by omega)
  have hcases : b / 16 = 12 ∨ b / 16 = 13 ∨ b / 16 = 14 := by omega
  rw [utfScanLoop]
  rcases hcases with h | h | h <;> simp [hb, hff, hsh, h, hnone]

/-! ## The fuel given to the loops is enough -/

theorem lt_length_of_getElem?_eq_some {l : List Nat} {i x : Nat} (h : l[i]? = some x) :
    i < l.length := by
  by_contra hge
  rw [List.getElem?_eq_none (by omega)] at h
  exact Option.noConfusion h

theorem utfFastLoop_ne_outOfFuel (n : Nat) (chars : List Nat) :
    ∀ (fuel i : Nat) (buf : List Nat), n - i ≤ fuel →
      utfFastLoop n chars fuel i buf ≠ .outOfFuel
  | 0, i, buf, h => by
    have hi : ¬ i < n := by omega
    simp [utfFastLoop, hi]
  | fuel + 1, i, buf, h => by
    rw [utfFastLoop]
    split
    · split
      · simp
      · split
        · simp
        · split
          · simp
          · exact utfFastLoop_ne_outOfFuel n chars fuel (i + 1) _ (by omega)
    · simp

theorem utfSlowLoop_ne_outOfFuel (n : Nat) (chars : List Nat) :
    ∀ (fuel i count : Nat) (buf : List Nat), n - i ≤ fuel →
      utfSlowLoop n chars fuel i count buf ≠ .outOfFuel
  | 0, i, count, buf, h => by
    have hi : ¬ i < n := by omega
    simp [utfSlowLoop, hi]
  | fuel + 1, i, count, buf, h => by
    rw [utfSlowLoop]
    repeat' split
    all_goals first
      | exact utfSlowLoop_ne_outOfFuel n chars fuel (i + 1) _ _ (by omega)
      | simp

/-- `WriteUTF` never ends by spent fuel: its loops get `len(s)` rounds and
each round moves `i` forward. -/
theorem WriteUTF_ne_outOfFuel (s sink : List Nat) : WriteUTF s sink ≠ .outOfFuel := by
  unfold WriteUTF
  split
  · simp
  · have h1 := utfFastLoop_ne_outOfFuel s.length (runesOfString s) s.length 0
      (List.replicate s.length 0) (by omega)
    simp only []
    split
    · simp
    · rename_i heq
      exact absurd heq h1
    · rename_i i buf1 heq
      split
      · simp
      · rename_i heq2
        exact absurd heq2
          (utfSlowLoop_ne_outOfFuel s.length (runesOfString s) s.length i 0 buf1 (by omega))
      · split
        · simp
        · simp [WriteUShort]

theorem utfScanLoop_ne_outOfFuel (utflen : Nat) (bArr rest : List Nat)
    (hlen : bArr.length = utflen) (hutf : utflen ≤ 65535) :
    ∀ (fuel count cArrCount : Nat) (cArr : List Nat), utflen - count ≤ fuel →
      utfScanLoop utflen bArr rest fuel count cArrCount cArr ≠ .outOfFuel
  | 0, count, cArrCount, cArr, h => by
    have hc : ¬ count < utflen := by omega
    rw [utfScanLoop]
    simp only [hc, if_false]
    split <;> simp
  | fuel + 1, count, cArrCount, cArr, h => by
    rw [utfScanLoop]
    split
    · rename_i hcount
      split
      · simp
      · simp only []
        split
        · split
          · simp
          · exact utfScanLoop_ne_outOfFuel utflen bArr rest hlen hutf fuel _ _ _ (by omega)
        · split
          · split
            · simp
            · rename_i hgt
              split
              · simp
              · rename_i c2 hc2
                have hidx := lt_length_of_getElem?_eq_some hc2
                split
                · simp
                · split
                  · simp
                  · exact utfScanLoop_ne_outOfFuel utflen bArr rest hlen hutf fuel _ _ _
                      (by omega)
          · split
            · split
              · simp
              · rename_i hgt
                split
                · simp
                · rename_i c2 hc2
                  have hidx2 := lt_length_of_getElem?_eq_some hc2
                  split
                  · simp
                  · rename_i c3 hc3
                    have hidx3 := lt_length_of_getElem?_eq_some hc3
                    split
                    · simp
                    · split
                      · simp
                      · exact utfScanLoop_ne_outOfFuel utflen bArr rest hlen hutf fuel _ _ _
                          (by omega)
            · simp
    · split <;> simp

theorem ReadUShort_ok_lt {src rest : List Nat} {v : Nat} (h : ReadUShort src = .ok v rest) :
    v < 65536 := by
  unfold ReadUShort at h
  split at h
  · simp only [Outcome.ok.injEq] at h
    omega
  all_goals simp at h

theorem ReadFull_ok_length {src bArr rest : List Nat} {n : Nat}
    (h : ReadFull src n = .ok bArr rest) : bArr.length = n := by
  unfold ReadFull at h
  split at h
  · simp only [Outcome.ok.injEq] at h
    rw [← h.1]
    simp [*]
  · split at h
    · simp at h
    · split at h
      · simp at h
      · simp only [Outcome.ok.injEq] at h
        rw [← h.1, List.length_take]
        omega

theorem ReadFull_ne_outOfFuel (src : List Nat) (n : Nat) : ReadFull src n ≠ .outOfFuel := by
  unfold ReadFull
  repeat' split
  all_goals simp

theorem ReadUShort_ne_outOfFuel (src : List Nat) : ReadUShort src ≠ .outOfFuel := by
  unfold ReadUShort
  split
  · simp
  · simp
  · simp
  · rename_i heq
    exact absurd heq (ReadFull_ne_outOfFuel src 2)

/-- `ReadUTF` never ends by spent fuel: the loop gets `utflen` rounds and
each round that goes on moves `count` forward. -/
theorem ReadUTFRunes_ne_outOfFuel (src : List Nat) : ReadUTFRunes src ≠ .outOfFuel := by
  unfold ReadUTFRunes
  split
  · simp
  · simp
  · rename_i heq
    exact absurd heq (ReadUShort_ne_outOfFuel src)
  · rename_i utflen rest heq
    have hlt := ReadUShort_ok_lt heq
    split
    · simp
    · simp
    · rename_i heq2
      exact absurd heq2 (ReadFull_ne_outOfFuel rest utflen)
    · rename_i bArr rest1 heq2
      exact utfScanLoop_ne_outOfFuel utflen bArr rest1 (ReadFull_ok_length heq2) (by omega)
        utflen 0 0 _ (by omega)

theorem ReadUTF_ne_outOfFuel (src : List Nat) : ReadUTF src ≠ .outOfFuel := by
  unfold ReadUTF
  have h := ReadUTFRunes_ne_outOfFuel src
  split
  · simp
  · simp
  · simp
  · rename_i heq
    exact absurd heq h

/-! ## Helper lemmas: texts of one repeated code unit -/

theorem stringOfRunes_replicate_of_le (n a : Nat) (ha : a ≤ 0x7F) :
    stringOfRunes (List.replicate n a) = List.replicate n a := by
  induction n with
  | zero => rfl
  | succ n ih => simp [List.replicate_succ, stringOfRunes, encodeRune, ha, ih]

theorem specEncodedLength_replicate_zero (n : Nat) :
    specEncodedLength (List.replicate n 0) = 2 * n := by
  induction n with
  | zero => rfl
  | succ n ih =>
    simp only [specEncodedLength] at ih
    simp [specEncodedLength, List.replicate_succ, specEncodeBody, specEncodeUnit, ih]
    omega

theorem specDecodeBody_replicate_of_lt (n a : Nat) (ha : a < 0x80) :
    specDecodeBody n (List.replicate n a) = some (List.replicate n a) := by
  induction n with
  | zero => rfl
  | succ n ih => simp [List.replicate_succ, specDecodeBody, ha, ih]

/-! ## Helper lemmas: the operations on a buffer -/

theorem ReadUShortFrom_ReadFull (src : List Nat) : ReadUShortFrom ReadFull src = ReadUShort src :=
  rfl

theorem ReadUTFRunesFrom_ReadFull (src : List Nat) :
    ReadUTFRunesFrom ReadFull src = ReadUTFRunes src :=
  rfl

theorem ReadUTFFrom_ReadFull (src : List Nat) : ReadUTFFrom ReadFull src = ReadUTF src := by
  unfold ReadUTFFrom ReadUTF
  rw [ReadUTFRunesFrom_ReadFull]
  cases ReadUTFRunes src <;> rfl

theorem WriteUShortTo_bufWrite (v : Nat) (sink : List Nat) :
    WriteUShortTo bufWrite v sink = WriteUShort v sink :=
  rfl

theorem WriteUTFTo_bufWrite (s sink : List Nat) : WriteUTFTo bufWrite s sink = WriteUTF s sink :=
  rfl

/-- A buffer that holds fewer than `n` bytes makes `io.ReadFull` fail. -/
theorem ReadFull_short (src : List Nat) (n : Nat) (h : src.length < n) :
    ∃ e, ReadFull src n = .error e := by
  unfold ReadFull
  have hn : ¬ n = 0 := by omega
  by_cases h0 : src.length = 0
  · exact ⟨.eof, by simp only [hn, h0, if_true, if_false]⟩
  · exact ⟨.unexpectedEOF, by simp only [hn, h0, h, if_true, if_false]⟩

theorem Outcome.map_error {α β : Type} (f : α → β) {o : Outcome α} {e : Err}
    (h : o = .error e) : o.map f = .error e := by
  subst h
  rfl

theorem ReadUShortFrom_error (rf : ReadFullFn) (src : List Nat) {e : Err}
    (h : rf src 2 = .error e) : ReadUShortFrom rf src = .error (.readUShortFailed e) := by
  simp only [ReadUShortFrom, h]

/-! ## Helper lemmas: big-endian bytes -/

theorem lor_shiftLeft_eq_add (a b k : Nat) (ha : a < 2 ^ k) :
    a ||| b <<< k = a + b * 2 ^ k := by
  rw [Nat.lor_comm, Nat.shiftLeft_eq, Nat.mul_comm b, ← Nat.mul_add_lt_is_or ha, Nat.add_comm]

theorem be16_eq (b0 b1 : Nat) (h1 : b1 < 256) :
    b1 ||| (b0 <<< 8) = b1 + b0 * 256 := by
  rw [lor_shiftLeft_eq_add b1 b0 8 (by omega)]
  norm_num

theorem be32_eq (b0 b1 b2 b3 : Nat) (h1 : b1 < 256) (h2 : b2 < 256) (h3 : b3 < 256) :
    b3 ||| (b2 <<< 8) ||| (b1 <<< 16) ||| (b0 <<< 24) =
      b3 + b2 * 256 + b1 * 65536 + b0 * 16777216 := by
  rw [lor_shiftLeft_eq_add b3 b2 8 (by omega), lor_shiftLeft_eq_add _ b1 16 (by omega),
    lor_shiftLeft_eq_add _ b0 24 (by omega)]
  norm_num

theorem be64_eq (b0 b1 b2 b3 b4 b5 b6 b7 : Nat) (h1 : b1 < 256) (h2 : b2 < 256)
    (h3 : b3 < 256) (h4 : b4 < 256) (h5 : b5 < 256) (h6 : b6 < 256) (h7 : b7 < 256) :
    b7 ||| (b6 <<< 8) ||| (b5 <<< 16) ||| (b4 <<< 24) ||| (b3 <<< 32) ||| (b2 <<< 40) |||
      (b1 <<< 48) ||| (b0 <<< 56) =
      b7 + b6 * 256 + b5 * 65536 + b4 * 16777216 + b3 * 4294967296 + b2 * 1099511627776 +
        b1 * 281474976710656 + b0 * 72057594037927936 := by
  rw [lor_shiftLeft_eq_add b7 b6 8 (by omega), lor_shiftLeft_eq_add _ b5 16 (by omega),
    lor_shiftLeft_eq_add _ b4 24 (by omega), lor_shiftLeft_eq_add _ b3 32 (by omega),
    lor_shiftLeft_eq_add _ b2 40 (by omega), lor_shiftLeft_eq_add _ b1 48 (by omega),
    lor_shiftLeft_eq_add _ b0 56 (by omega)]
  norm_num

/-- The value `ReadUShort` assembles from the two big-endian bytes of a
16-bit pattern is the pattern. -/
theorem be16_of_pattern (p : Nat) (hp : p < 2 ^ 16) :
    (p % 256 ||| ((p / 2 ^ 8 % 256) <<< 8)) % 65536 = p := by
  rw [be16_eq _ _ (Nat.mod_lt _ (by decide))]
  omega

/-- The value `ReadUInt` assembles from the four big-endian bytes of a
32-bit pattern is the pattern. -/
theorem be32_of_pattern (p : Nat) (hp : p < 2 ^ 32) :
    (p % 256 ||| ((p / 2 ^ 8 % 256) <<< 8) ||| ((p / 2 ^ 16 % 256) <<< 16) |||
      ((p / 2 ^ 24 % 256) <<< 24)) % 4294967296 = p := by
  rw [be32_eq _ _ _ _ (Nat.mod_lt _ (by decide)) (Nat.mod_lt _ (by decide))
    (Nat.mod_lt _ (by decide))]
  omega

/-- The value `ReadULong` assembles from the eight big-endian bytes of a
64-bit pattern is the pattern. -/
theorem be64_of_pattern (p : Nat) (hp : p < 2 ^ 64) :
    (p % 256 ||| ((p / 2 ^ 8 % 256) <<< 8) ||| ((p / 2 ^ 16 % 256) <<< 16) |||
      ((p / 2 ^ 24 % 256) <<< 24) ||| ((p / 2 ^ 32 % 256) <<< 32) |||
      ((p / 2 ^ 40 % 256) <<< 40) ||| ((p / 2 ^ 48 % 256) <<< 48) |||
      ((p / 2 ^ 56 % 256) <<< 56)) % 18446744073709551616 = p := by
  rw [be64_eq _ _ _ _ _ _ _ _ (Nat.mod_lt _ (by decide)) (Nat.mod_lt _ (by decide))
    (Nat.mod_lt _ (by decide)) (Nat.mod_lt _ (by decide)) (Nat.mod_lt _ (by decide))
    (Nat.mod_lt _ (by decide)) (Nat.mod_lt _ (by decide))]
  omega

theorem byteShr_eq (v : Int) (k : Nat) :
    byteShr v k = ((v / ((2 ^ k : Nat) : Int)) % 256).toNat := by
  rw [byteShr, Int.shiftRight_eq_div_pow]

/-- The bytes `WriteShort` takes from `v` are the big-endian bytes of the
16-bit two's-complement pattern of `v`. -/
theorem shortBytes_eq (v : Int) :
    [byteShr v 8, byteShr v 0] =
      [(v % 2 ^ 16).toNat / 2 ^ 8 % 256, (v % 2 ^ 16).toNat % 256] := by
  simp only [byteShr_eq]
  norm_num
  constructor <;> omega

/-- The bytes `WriteInt` takes from `v` are the big-endian bytes of the
32-bit two's-complement pattern of `v`. -/
theorem intBytes_eq (v : Int) :
    [byteShr v 24, byteShr v 16, byteShr v 8, byteShr v 0] =
      [(v % 2 ^ 32).toNat / 2 ^ 24 % 256, (v % 2 ^ 32).toNat / 2 ^ 16 % 256,
        (v % 2 ^ 32).toNat / 2 ^ 8 % 256, (v % 2 ^ 32).toNat % 256] := by
  simp only [byteShr_eq]
  norm_num
  refine ⟨?_, ?_, ?_, ?_⟩ <;> omega

/-- The bytes `WriteLong` takes from `v` are the big-endian bytes of the
64-bit two's-complement pattern of `v`. -/
theorem longBytes_eq (v : Int) :
    [byteShr v 56, byteShr v 48, byteShr v 40, byteShr v 32,
        byteShr v 24, byteShr v 16, byteShr v 8, byteShr v 0] =
      [(v % 2 ^ 64).toNat / 2 ^ 56 % 256, (v % 2 ^ 64).toNat / 2 ^ 48 % 256,
        (v % 2 ^ 64).toNat / 2 ^ 40 % 256, (v % 2 ^ 64).toNat / 2 ^ 32 % 256,
        (v % 2 ^ 64).toNat / 2 ^ 24 % 256, (v % 2 ^ 64).toNat / 2 ^ 16 % 256,
        (v % 2 ^ 64).toNat / 2 ^ 8 % 256, (v % 2 ^ 64).toNat % 256] := by
  simp only [byteShr_eq]
  norm_num
  refine ⟨?_, ?_, ?_, ?_, ?_, ?_, ?_, ?_⟩ <;> omega

theorem ReadUInt_cons (b0 b1 b2 b3 : Nat) (rest : List Nat) :
    ReadUInt ReadFull (b0 :: b1 :: b2 :: b3 :: rest) =
      .ok ((b3 ||| (b2 <<< 8) ||| (b1 <<< 16) ||| (b0 <<< 24)) % 4294967296) rest := by
  have h := ReadFull_append [b0, b1, b2, b3] rest
  simp only [List.length_cons, List.length_nil, List.cons_append, List.nil_append] at h
  simp only [ReadUInt, h, Outcome.map]
  rfl

theorem ReadULong_cons (b0 b1 b2 b3 b4 b5 b6 b7 : Nat) (rest : List Nat) :
    ReadULong ReadFull (b0 :: b1 :: b2 :: b3 :: b4 :: b5 :: b6 :: b7 :: rest) =
      .ok ((b7 ||| (b6 <<< 8) ||| (b5 <<< 16) ||| (b4 <<< 24) ||| (b3 <<< 32) |||
        (b2 <<< 40) ||| (b1 <<< 48) ||| (b0 <<< 56)) % 18446744073709551616) rest := by
  have h := ReadFull_append [b0, b1, b2, b3, b4, b5, b6, b7] rest
  simp only [List.length_cons, List.length_nil, List.cons_append, List.nil_append] at h
  simp only [ReadULong, h, Outcome.map]
  rfl

theorem int16_pattern (v : Int) (hv : -32768 ≤ v ∧ v < 32768) :
    int16 (v % 2 ^ 16).toNat = v := by
  unfold int16
  split <;> omega

theorem int32_pattern (v : Int) (hv : -2147483648 ≤ v ∧ v < 2147483648) :
    int32 (v % 2 ^ 32).toNat = v := by
  unfold int32
  split <;> omega

theorem int64_pattern (v : Int) (hv : -9223372036854775808 ≤ v ∧ v < 9223372036854775808) :
    int64 (v % 2 ^ 64).toNat = v := by
  unfold int64
  split <;> omega

theorem ReadShort_cons_cons (b0 b1 : Nat) (rest : List Nat) :
    ReadShort ReadFull (b0 :: b1 :: rest) = .ok (int16 ((b1 ||| (b0 <<< 8)) % 65536)) rest := by
  rw [ReadShort, ReadUShortFrom_ReadFull, ReadUShort_cons_cons]
  rfl

theorem ReadInt_cons (b0 b1 b2 b3 : Nat) (rest : List Nat) :
    ReadInt ReadFull (b0 :: b1 :: b2 :: b3 :: rest) =
      .ok (int32 ((b3 ||| (b2 <<< 8) ||| (b1 <<< 16) ||| (b0 <<< 24)) % 4294967296)) rest := by
  rw [ReadInt, ReadUInt_cons]
  rfl

theorem ReadLong_cons (b0 b1 b2 b3 b4 b5 b6 b7 : Nat) (rest : List Nat) :
    ReadLong ReadFull (b0 :: b1 :: b2 :: b3 :: b4 :: b5 :: b6 :: b7 :: rest) =
      .ok (int64 ((b7 ||| (b6 <<< 8) ||| (b5 <<< 16) ||| (b4 <<< 24) ||| (b3 <<< 32) |||
        (b2 <<< 40) ||| (b1 <<< 48) ||| (b0 <<< 56)) % 18446744073709551616)) rest := by
  rw [ReadLong, ReadULong_cons]
  rfl

/-- `ReadUShort` on the bytes of `WriteUShort(v)`. -/
theorem ReadUShort_WriteUShort (u : Nat) (rest : List Nat) (hu : u < 65536) :
    ReadUShort ((u >>> 8) % 256 :: (u >>> 0) % 256 :: rest) = .ok u rest := by
  rw [ReadUShort_cons_cons, Nat.shiftRight_eq_div_pow, Nat.shiftRight_eq_div_pow,
    Nat.pow_zero, Nat.div_one, be16_of_pattern u (by omega)]

/-- `ReadShort` on the bytes of `WriteShort(v)`. -/
theorem ReadShort_WriteShort (v : Int) (rest : List Nat) (hv : -32768 ≤ v ∧ v < 32768) :
    ReadShort ReadFull (byteShr v 8 :: byteShr v 0 :: rest) = .ok v rest := by
  have h := shortBytes_eq v
  simp only [List.cons.injEq, and_true] at h
  rw [ReadShort_cons_cons, h.1, h.2, be16_of_pattern _ (by omega), int16_pattern v hv]

/-- `ReadInt` on the bytes of `WriteInt(v)`. -/
theorem ReadInt_WriteInt (v : Int) (rest : List Nat)
    (hv : -2147483648 ≤ v ∧ v < 2147483648) :
    ReadInt ReadFull (byteShr v 24 :: byteShr v 16 :: byteShr v 8 :: byteShr v 0 :: rest) =
      .ok v rest := by
  have h := intBytes_eq v
  simp only [List.cons.injEq, and_true] at h
  rw [ReadInt_cons, h.1, h.2.1, h.2.2.1, h.2.2.2, be32_of_pattern _ (by omega),
    int32_pattern v hv]

/-- `ReadLong` on the bytes of `WriteLong(v)`. -/
theorem ReadLong_WriteLong (v : Int) (rest : List Nat)
    (hv : -9223372036854775808 ≤ v ∧ v < 9223372036854775808) :
    ReadLong ReadFull (byteShr v 56 :: byteShr v 48 :: byteShr v 40 :: byteShr v 32 ::
      byteShr v 24 :: byteShr v 16 :: byteShr v 8 :: byteShr v 0 :: rest) = .ok v rest := by
  have h := longBytes_eq v
  simp only [List.cons.injEq, and_true] at h
  rw [ReadLong_cons, h.1, h.2.1, h.2.2.1, h.2.2.2.1, h.2.2.2.2.1, h.2.2.2.2.2.1,
    h.2.2.2.2.2.2.1, h.2.2.2.2.2.2.2, be64_of_pattern _ (by omega), int64_pattern v hv]

/-! ## Helper lemmas: framing and the ASCII round trip -/

theorem setAt_length {buf buf1 : List Nat} {i v : Nat} (h : setAt buf i v = some buf1) :
    buf1.length = buf.length := by
  unfold setAt at h
  split at h
  · simp only [Option.some.injEq] at h
    rw [← h, List.length_set]
  · exact Option.noConfusion h

theorem utfFastLoop_length (n : Nat) (chars : List Nat) :
    ∀ (fuel i : Nat) (buf : List Nat) (r : Nat × List Nat),
      utfFastLoop n chars fuel i buf = .done r → r.2.length = buf.length
  | 0, i, buf, r, h => by
    rw [utfFastLoop] at h
    split at h
    · exact Run.noConfusion h
    · simp only [Run.done.injEq] at h
      rw [← h]
  | fuel + 1, i, buf, r, h => by
    rw [utfFastLoop] at h
    split at h
    · split at h
      · exact Run.noConfusion h
      · split at h
        · simp only [Run.done.injEq] at h
          rw [← h]
        · split at h
          · exact Run.noConfusion h
          · rename_i hset
            rw [utfFastLoop_length n chars fuel _ _ r h, setAt_length hset]
    · simp only [Run.done.injEq] at h
      rw [← h]

theorem utfSlowLoop_length (n : Nat) (chars : List Nat) :
    ∀ (fuel i count : Nat) (buf : List Nat) (r : Nat × List Nat),
      utfSlowLoop n chars fuel i count buf = .done r → r.2.length = buf.length
  | 0, i, count, buf, r, h => by
    rw [utfSlowLoop] at h
    split at h
    · exact Run.noConfusion h
    · simp only [Run.done.injEq] at h
      rw [← h]
  | fuel + 1, i, count, buf, r, h => by
    rw [utfSlowLoop] at h
    split at h
    · split at h
      · exact Run.noConfusion h
      · split at h
        · split at h
          · exact Run.noConfusion h
          · rename_i hset
            rw [utfSlowLoop_length n chars fuel _ _ _ r h, setAt_length hset]
        · split at h
          · split at h
            · exact Run.noConfusion h
            · rename_i hset1
              split at h
              · exact Run.noConfusion h
              · rename_i hset2
                split at h
                · exact Run.noConfusion h
                · rename_i hset3
                  rw [utfSlowLoop_length n chars fuel _ _ _ r h, setAt_length hset3,
                    setAt_length hset2, setAt_length hset1]
          · split at h
            · exact Run.noConfusion h
            · rename_i hset1
              split at h
              · exact Run.noConfusion h
              · rename_i hset2
                rw [utfSlowLoop_length n chars fuel _ _ _ r h, setAt_length hset2,
                  setAt_length hset1]
    · simp only [Run.done.injEq] at h
      rw [← h]

/-- What `WriteUTF` has written when it returns `nil`: the two big-endian
bytes of `len(s)` and a body of `len(s)` bytes. -/
theorem WriteUTF_ok_shape (s sink out : List Nat) (h : WriteUTF s sink = .ret none out) :
    s.length ≤ 65535 ∧ ∃ body : List Nat, body.length = s.length ∧
      out = sink ++ [(s.length >>> 8) % 256, s.length % 256] ++ body := by
  unfold WriteUTF at h
  split at h
  · simp at h
  · rename_i hlen
    simp only [] at h
    split at h
    · exact WOutcome.noConfusion h
    · exact WOutcome.noConfusion h
    · rename_i i buf1 hfast
      have hl1 := utfFastLoop_length _ _ _ _ _ _ hfast
      split at h
      · exact WOutcome.noConfusion h
      · exact WOutcome.noConfusion h
      · rename_i cnt buf2 hslow
        have hl2 := utfSlowLoop_length _ _ _ _ _ _ _ hslow
        simp only [List.length_replicate] at hl1
        simp only [] at hl1 hl2
        have hb : buf2.length = s.length := by rw [hl2, hl1]
        split at h
        · simp at h
        · simp only [WriteUShort, hb, Nat.mod_eq_of_lt (show s.length < 65536 by omega),
            Nat.shiftRight_zero, WOutcome.ret.injEq, true_and] at h
          exact ⟨by omega, buf2, hb, h.symm⟩

theorem stringOfRunes_of_le : ∀ (t : List Nat), (∀ b ∈ t, b ≤ 0x7F) → stringOfRunes t = t
  | [], _ => rfl
  | b :: t, h => by
    have hb : b ≤ 0x7F := h b (List.mem_cons_self b t)
    have ht := stringOfRunes_of_le t (fun x hx => h x (List.mem_cons_of_mem b hx))
    simp [stringOfRunes, encodeRune, hb, ht]

/-- On a body of bytes below 0x80, with room in the rune slice, the loop
returns the bytes as runes. -/
theorem utfScanLoop_ascii (rest : List Nat) : ∀ (post pre cp cz : List Nat) (fuel : Nat),
    (pre ++ post).length ≤ 65535 → cp.length = pre.length → post.length ≤ cz.length →
    post.length ≤ fuel → (∀ b ∈ post, b < 0x80) →
    utfScanLoop (pre ++ post).length (pre ++ post) rest fuel pre.length pre.length (cp ++ cz) =
      .ok (cp ++ post) rest
  | [], pre, cp, cz, fuel, _, hcp, _, _, _ => by
    have hlt : ¬ pre.length < pre.length := Nat.lt_irrefl _
    have hle : pre.length ≤ (cp ++ cz).length := by simp [hcp]
    have htake : (cp ++ cz).take pre.length = cp := by rw [← hcp, List.take_left]
    rw [List.append_nil, List.append_nil]
    cases fuel <;> simp only [utfScanLoop, hlt, hle, if_true, if_false, htake]
  | c :: post, pre, cp, cz, 0, _, _, _, hfuel, _ => by simp at hfuel
  | c :: post, pre, cp, cz, fuel + 1, hlen, hcp, hcz, hfuel, hs => by
    obtain ⟨z, cz1, rfl⟩ : ∃ z cz1, cz = z :: cz1 := by
      cases cz with
      | nil => simp at hcz
      | cons z cz1 => exact ⟨z, cz1, rfl⟩
    have hc : c < 0x80 := hs c (List.mem_cons_self c post)
    have hpost : ∀ b ∈ post, b < 0x80 := fun b hb => hs b (List.mem_cons_of_mem c hb)
    have e : pre ++ c :: post = (pre ++ [c]) ++ post := by simp
    have ih := utfScanLoop_ascii rest post (pre ++ [c]) (cp ++ [c]) cz1 fuel
      (by rw [← e]; exact hlen) (by simp [hcp]) (by simpa using hcz) (by simpa using hfuel)
      hpost
    rw [← e] at ih
    simp only [List.length_append, List.length_singleton, List.append_assoc,
      List.singleton_append] at ih
    have hget : (pre ++ c :: post)[pre.length]? = some c := by
      rw [List.getElem?_append_right (Nat.le_refl _), Nat.sub_self, List.getElem?_cons_zero]
    have hstep := utfScanLoop_step_ascii (pre ++ c :: post).length (pre ++ c :: post) rest fuel
      pre.length pre.length (cp ++ z :: cz1) c (by simp) hlen hget hc (by simp [hcp])
    have hset : (cp ++ z :: cz1).set pre.length c = cp ++ c :: cz1 := by
      rw [← hcp]
      simp
    rw [hstep, hset]
    simpa [List.length_append] using ih

/-- The two bytes `WriteUShort` writes for a length `L ≤ 65535` read back as
`L`. -/
theorem be16_of_length (L : Nat) (hL : L ≤ 65535) :
    (L % 256 ||| (((L >>> 8) % 256) <<< 8)) % 65536 = L := by
  rw [Nat.shiftRight_eq_div_pow, be16_of_pattern L (by omega)]

/-- `ReadUTF` on the prefix of `len(s)` and a body `s` of bytes below 0x80,
when the rune slice of `uint16(3*len(s))` entries has room for `s`. -/
theorem ReadUTF_ascii (s rest : List Nat) (hs : ∀ b ∈ s, b < 0x80) (hlen : s.length ≤ 65535)
    (hcap : s.length ≤ (s.length * 3) % 65536) :
    ReadUTF ((s.length >>> 8) % 256 :: s.length % 256 :: (s ++ rest)) = .ok s rest := by
  have hbody := ReadUTFRunes_of_body ((s.length >>> 8) % 256) (s.length % 256) s rest s.length
    (be16_of_length s.length hlen) rfl
  have hloop := utfScanLoop_ascii rest s [] [] (List.replicate ((s.length * 3) % 65536) 0)
    s.length (by simpa using hlen) rfl (by simpa using hcap) (Nat.le_refl _) hs
  simp only [List.nil_append, List.length_nil] at hloop
  rw [ReadUTF, hbody, hloop]
  simp only []
  rw [stringOfRunes_of_le s (fun b hb => by have := hs b hb; omega)]

/-- With `utflen = 65535` a three-byte lead byte in the last position but
one makes `count` wrap around to 0 and the loop index the body out of
range. -/
theorem utfScanLoop_wrap_panic_three (bArr rest : List Nat) (fuel cArrCount : Nat)
    (cArr : List Nat) (b : Nat) (hlen : bArr.length = 65535)
    (hb : bArr[65533]? = some b) (hlead : 0xE0 ≤ b ∧ b < 0xF0) :
    utfScanLoop 65535 bArr rest (fuel + 1) 65533 cArrCount cArr = .panic := by
  have hff : b &&& 0xFF = b := by
    have h8 : b < 2 ^ 8 := by norm_num; omega
    simpa using Nat.and_pow_two_sub_one_of_lt_two_pow h8
  have hsh : b >>> 4 = b / 16 := by rw [Nat.shiftRight_eq_div_pow]
  have hnone : bArr[65535]? = none := List.getElem?_eq_none (by omega)
  have h14 : b / 16 = 14 := by omega
  rw [utfScanLoop]
  cases h2 : bArr[65534]? <;> simp [hb, hff, hsh, h14, hnone, h2]

/-! ## Helper lemmas: where an error of the sink or the source goes -/

/-- What `WriteUTF` returns on any writer: it panics, or it returns its
length error with the sink untouched, or it returns exactly what the writer
returns, for the two bytes of `len(s)` when that write does not return `nil`
and else for the body of `len(s)` bytes. -/
theorem WriteUTFTo_returns_writer_result (wr : Writer) (s sink : List Nat) :
    WriteUTFTo wr s sink = .panic ∨
    (s.length > 65535 ∧ WriteUTFTo wr s sink = .ret (some .lengthExceeded) sink) ∨
    (s.length ≤ 65535 ∧ ∃ body : List Nat, body.length = s.length ∧
      WriteUTFTo wr s sink =
        match wr [(s.length >>> 8) % 256, s.length % 256] sink with
        | .ret none sink1 => wr body sink1
        | other => other) := by
  unfold WriteUTFTo
  split
  · rename_i hlen
    exact Or.inr (Or.inl ⟨hlen, rfl⟩)
  · rename_i hlen
    simp only []
    split
    · exact Or.inl rfl
    · rename_i hfast
      exact absurd hfast (utfFastLoop_ne_outOfFuel _ _ _ _ _ (by omega))
    · rename_i i buf1 hfast
      have hl1 := utfFastLoop_length _ _ _ _ _ _ hfast
      split
      · exact Or.inl rfl
      · rename_i hslow
        exact absurd hslow (utfSlowLoop_ne_outOfFuel _ _ _ _ _ _ (by omega))
      · rename_i cnt buf2 hslow
        have hl2 := utfSlowLoop_length _ _ _ _ _ _ _ hslow
        simp only [List.length_replicate] at hl1
        simp only [] at hl1 hl2
        have hb : buf2.length = s.length := by rw [hl2, hl1]
        have hle : ¬ buf2.length > 65535 := by omega
        refine Or.inr (Or.inr ⟨by omega, buf2, hb, ?_⟩)
        simp only [hle, hlen, if_false, WriteUShortTo, hb,
          Nat.mod_eq_of_lt (show s.length < 65536 by omega), Nat.shiftRight_zero]

/-- A sink whose write of the two length bytes fails with `e` makes
`WriteUTF` return exactly `e`, unless it panics or returns its length
error. -/
theorem WriteUTFTo_error_of_first_write (wr : Writer) (s sink sink1 : List Nat) (e : Err)
    (hwr : ∀ p, wr p sink = .ret (some e) sink1) :
    WriteUTFTo wr s sink = .panic ∨
    WriteUTFTo wr s sink = .ret (some .lengthExceeded) sink ∨
    WriteUTFTo wr s sink = .ret (some e) sink1 := by
  rcases WriteUTFTo_returns_writer_result wr s sink with h | ⟨_, h⟩ | ⟨_, body, _, h⟩
  · exact Or.inl h
  · exact Or.inr (Or.inl h)
  · rw [hwr] at h
    exact Or.inr (Or.inr h)

/-- A sink that takes the two length bytes and fails with `e` on the body
makes `WriteUTF` return exactly `e`, unless it panics. -/
theorem WriteUTFTo_error_of_second_write (wr : Writer) (s sink sink1 sink2 : List Nat)
    (e : Err) (hlen : s.length ≤ 65535)
    (h1 : wr [(s.length >>> 8) % 256, s.length % 256] sink = .ret none sink1)
    (h2 : ∀ p, wr p sink1 = .ret (some e) sink2) :
    WriteUTFTo wr s sink = .panic ∨ WriteUTFTo wr s sink = .ret (some e) sink2 := by
  rcases WriteUTFTo_returns_writer_result wr s sink with h | ⟨hgt, _⟩ | ⟨_, body, _, h⟩
  · exact Or.inl h
  · omega
  · rw [h1] at h
    simp only [] at h
    rw [h2] at h
    exact Or.inr h

/-- The sites that return the error of the sink or of `io.ReadFull` as it
is: when `io.ReadFull` on the source fails with `e`, `ReadByte`,
`ReadBoolean`, `ReadUInt`, `ReadInt`, `ReadULong`, `ReadLong`, `ReadFloat`,
`ReadDouble` and the body read of `ReadUTF` return exactly `e`, while
`ReadUShort`, `ReadShort`, `ReadChar` and the first read of `ReadUTF` return
`e` wrapped by `ReadUShort`; when the sink fails with `e`, every fixed-width
write returns exactly `e`. -/
theorem errors_of_source_and_sink {F32 F64 : Type} (bits32 : F32 → Nat)
    (frombits32 : Nat → F32) (bits64 : F64 → Nat) (frombits64 : Nat → F64)
    (rf : ReadFullFn) (wr : Writer) (src src2 rest sink sink1 : List Nat) (L : Nat) (e : Err)
    (hrf : ∀ n, 0 < n → rf src n = .error e)
    (hpre : ReadUShortFrom rf src2 = .ok L rest) (hbody : rf rest L = .error e)
    (hwr : ∀ p, wr p sink = .ret (some e) sink1) :
    (ReadByte rf src = .error e ∧ ReadBoolean rf src = .error e ∧
      ReadUInt rf src = .error e ∧ ReadInt rf src = .error e ∧
      ReadULong rf src = .error e ∧ ReadLong rf src = .error e ∧
      ReadFloat frombits32 rf src = .error e ∧ ReadDouble frombits64 rf src = .error e ∧
      ReadUTFFrom rf src2 = .error e) ∧
    (ReadUShortFrom rf src = .error (.readUShortFailed e) ∧
      ReadShort rf src = .error (.readUShortFailed e) ∧
      ReadChar rf src = .error (.readUShortFailed e) ∧
      ReadUTFFrom rf src = .error (.readUShortFailed e)) ∧
    ((∀ b, WriteByte wr b sink = .ret (some e) sink1) ∧
      (∀ v, WriteBoolean wr v sink = .ret (some e) sink1) ∧
      (∀ v, WriteUShortTo wr v sink = .ret (some e) sink1) ∧
      (∀ v, WriteShort wr v sink = .ret (some e) sink1) ∧
      (∀ v, WriteChar wr v sink = .ret (some e) sink1) ∧
      (∀ v, WriteInt wr v sink = .ret (some e) sink1) ∧
      (∀ v, WriteLong wr v sink = .ret (some e) sink1) ∧
      (∀ v, WriteFloat bits32 wr v sink = .ret (some e) sink1) ∧
      (∀ v, WriteDouble bits64 wr v sink = .ret (some e) sink1)) := by
  have h1 := hrf 1 (by decide)
  have h2 := hrf 2 (by decide)
  have h4 := hrf 4 (by decide)
  have h8 := hrf 8 (by decide)
  have hus := ReadUShortFrom_error rf src h2
  have hui : ReadUInt rf src = .error e := Outcome.map_error _ h4
  have hul : ReadULong rf src = .error e := Outcome.map_error _ h8
  refine ⟨⟨Outcome.map_error _ h1, Outcome.map_error _ h1, hui, Outcome.map_error _ hui, hul,
    Outcome.map_error _ hul, Outcome.map_error _ hui, Outcome.map_error _ hul, ?_⟩,
    ⟨hus, Outcome.map_error _ hus, Outcome.map_error _ hus, ?_⟩,
    ⟨fun b => hwr _, ?_, fun v => hwr _, fun v => hwr _, fun v => hwr _, fun v => hwr _,
      fun v => hwr _, fun v => hwr _, fun v => hwr _⟩⟩
  · apply Outcome.map_error
    simp only [ReadUTFRunesFrom, hpre, hbody]
  · apply Outcome.map_error
    simp only [ReadUTFRunesFrom, hus]
  · intro v
    cases v
    · exact hwr _
    · exact hwr _

/-! ## The claims -/

/-- C1, text round trip, evaluated at the two-unit text 'a', NUL (encoded
length 3): `WriteUTF` returns no error but writes 00 02 C0 80, the second
loop having started again at `buf[0]` and the length being `len(s)`; `ReadUTF`
on those bytes returns the one-unit text NUL, not the text written. -/
theorem C1_roundtrip_loses_prefix :
    specEncodedLength [0x61, 0] ≤ 65535 ∧
    WriteUTF (stringOfRunes [0x61, 0]) [] = .ret none [0, 2, 0xC0, 0x80] ∧
    ReadUTF [0, 2, 0xC0, 0x80] = .ok (stringOfRunes [0]) [] ∧
    stringOfRunes [0] ≠ stringOfRunes [0x61, 0] := by
  decide

/-- C2, ASCII round trip, evaluated at the string of 21846 letters 'a':
`WriteUTF` writes the prefix 55 56 and the letters, and `ReadUTF` on that
buffer panics, its rune slice having `uint16(21846*3) = 2` entries. -/
theorem C2_ascii_roundtrip_panics_at_21846 :
    (∀ b ∈ List.replicate 21846 0x61, 0x01 ≤ b ∧ b ≤ 0x7F) ∧
    (List.replicate 21846 0x61).length ≤ 65535 ∧
    WriteUTF (List.replicate 21846 0x61) [] =
      .ret none (0x55 :: 0x56 :: List.replicate 21846 0x61) ∧
    ReadUTF (0x55 :: 0x56 :: List.replicate 21846 0x61) = .panic := by
  have hmem : ∀ b ∈ List.replicate 21846 0x61, 0x01 ≤ b ∧ b ≤ 0x7F := by
    intro b hb
    rw [List.eq_of_mem_replicate hb]
    decide
  have hlen : (List.replicate 21846 0x61).length = 21846 := List.length_replicate _ _
  refine ⟨hmem, by rw [hlen]; decide, ?_, ?_⟩
  · have h := WriteUTF_ascii (List.replicate 21846 0x61) []
      (fun b hb => by have := hmem b hb; omega) (by rw [hlen]; decide)
    rw [hlen] at h
    exact h
  · apply ReadUTF_of_panic
    have h := ReadUTFRunes_panic_ascii 0x55 0x56 (List.replicate 21846 0x61) [] 21846
      (by decide) hlen (by decide)
      (fun i hi => ⟨0x61, List.getElem?_replicate_of_lt (by omega), by decide⟩)
    rw [List.append_nil] at h
    exact h

/-- C3, encoder against its reference, evaluated at the text 'A', NUL, 'B':
the reference bytes are 00 04 41 C0 80 42, `WriteUTF` writes
00 03 C0 80 42. -/
theorem C3_encoder_differs_from_reference :
    specWriteUTF [0x41, 0, 0x42] = some [0, 4, 0x41, 0xC0, 0x80, 0x42] ∧
    WriteUTF (stringOfRunes [0x41, 0, 0x42]) [] = .ret none [0, 3, 0xC0, 0x80, 0x42] := by
  decide

/-- C4, decoder against its reference, evaluated at the body 41 E1 88 B4 (a
one-byte form and a three-byte form): the reference code units are 0x41,
0x1234; `ReadUTF` returns 0x41, 0x1034, the term `(c2 & 0x3F) << 6` being
computed in a byte. -/
theorem C4_decoder_differs_from_reference :
    specDecodeBody 4 [0x41, 0xE1, 0x88, 0xB4] = some [0x41, 0x1234] ∧
    ReadUTFRunes [0, 4, 0x41, 0xE1, 0x88, 0xB4] = .ok [0x41, 0x1034] [] ∧
    ReadUTF [0, 4, 0x41, 0xE1, 0x88, 0xB4] = .ok (stringOfRunes [0x41, 0x1034]) [] ∧
    stringOfRunes [0x41, 0x1034] ≠ stringOfRunes [0x41, 0x1234] := by
  decide

/-- C5, null code unit, evaluated: `WriteUTF` of the one-unit text NUL
panics (it writes `buf[1]` of a one-byte `buf`) and writes nothing, while
`ReadUTF` on 00 02 C0 80 does return the one-unit text NUL. -/
theorem C5_null_unit_write_panics :
    WriteUTF (stringOfRunes [0]) [] = .panic ∧
    ReadUTF [0, 2, 0xC0, 0x80] = .ok (stringOfRunes [0]) [] := by
  decide

/-- C6, three-byte form, evaluated at E0 A0 80 (the form of the code unit
0x0800): `ReadUTF` returns the code unit 0, bits 8 to 11 being lost. -/
theorem C6_three_byte_form_loses_bits :
    (0xE0 &&& 0x0F) <<< 12 ||| (0xA0 &&& 0x3F) <<< 6 ||| (0x80 &&& 0x3F) = 0x0800 ∧
    ReadUTFRunes [0, 3, 0xE0, 0xA0, 0x80] = .ok [0] [] ∧
    ReadUTF [0, 3, 0xE0, 0xA0, 0x80] = .ok (stringOfRunes [0]) [] ∧
    stringOfRunes [0] ≠ stringOfRunes [0x0800] := by
  decide

/-- C7, length overflow, evaluated at the text of 32768 NUL units (32768
bytes as a Go string, encoded length 65536): `WriteUTF` does not return the
length error, it panics when the second loop reaches the end of `buf`. -/
theorem C7_length_overflow_panics :
    specEncodedLength (List.replicate 32768 0) = 65536 ∧
    WriteUTF (stringOfRunes (List.replicate 32768 0)) [] = .panic := by
  refine ⟨by rw [specEncodedLength_replicate_zero], ?_⟩
  rw [stringOfRunes_replicate_of_le 32768 0 (by decide)]
  exact WriteUTF_nuls_panic 32768 [] (by decide) (by decide)

/-- C8, grammar violations, evaluated at the body of 21845 letters 'a' (a
concatenation of one-byte forms) followed by the lead byte 0x80: `ReadUTF`
returns no malformed-input error, it panics on its rune slice of
`uint16(21846*3) = 2` entries before the scan comes to the byte 0x80. -/
theorem C8_bad_lead_not_reported :
    specDecodeBody 21845 (List.replicate 21845 0x61) = some (List.replicate 21845 0x61) ∧
    (0x80 >>> 4 = 0b1000) ∧
    ReadUTF (0x55 :: 0x56 :: (List.replicate 21845 0x61 ++ [0x80])) = .panic := by
  refine ⟨specDecodeBody_replicate_of_lt 21845 0x61 (by decide), by decide, ?_⟩
  apply ReadUTF_of_panic
  have h := ReadUTFRunes_panic_ascii 0x55 0x56 (List.replicate 21845 0x61 ++ [0x80]) [] 21846
    (by decide) (by rw [List.length_append, List.length_replicate]; rfl) (by decide)
    (fun i hi => ⟨0x61, by
      rw [List.getElem?_append_left (by rw [List.length_replicate]; omega),
        List.getElem?_replicate_of_lt (by omega)], by decide⟩)
  rw [List.append_nil] at h
  exact h

/-- C9, truncated multi-byte sequence, evaluated at the body of 65535 bytes
made of 65532 letters 'a', the two-byte form C2 80 and the three-byte lead
0xE0 as last byte: `count += 3` wraps around to 1, the test
`count > utflen` passes, and `ReadUTF` panics on `bArr[count-2]`. -/
theorem C9_truncated_lead_panics :
    (List.replicate 65532 0x61 ++ [0xC2, 0x80, 0xE0]).length = 65535 ∧
    ReadUTF (0xFF :: 0xFF :: (List.replicate 65532 0x61 ++ [0xC2, 0x80, 0xE0])) = .panic := by
  have hlen : (List.replicate 65532 0x61 ++ [0xC2, 0x80, 0xE0]).length = 65535 := by
    rw [List.length_append, List.length_replicate]; rfl
  refine ⟨hlen, ?_⟩
  apply ReadUTF_of_panic
  have hbody := ReadUTFRunes_of_body 0xFF 0xFF
    (List.replicate 65532 0x61 ++ [0xC2, 0x80, 0xE0]) [] 65535 (by decide) hlen
  rw [List.append_nil] at hbody
  rw [hbody]
  generalize hbdef : List.replicate 65532 0x61 ++ [0xC2, 0x80, 0xE0] = bArr at hlen
  generalize hcdef : List.replicate (65535 * 3 % 65536) 0 = cArr
  have hclen : cArr.length = 65533 := by rw [← hcdef, List.length_replicate]
  have hpre : ∀ i, i < 65532 → bArr[i]? = some 0x61 := by
    intro i hi
    rw [← hbdef, List.getElem?_append_left (by rw [List.length_replicate]; exact hi),
      List.getElem?_replicate_of_lt hi]
  have htail : ∀ j, bArr[65532 + j]? = [0xC2, 0x80, 0xE0][j]? := by
    intro j
    rw [← hbdef, List.getElem?_append_right (by rw [List.length_replicate]; omega),
      List.length_replicate, Nat.add_sub_cancel_left]
  obtain ⟨cArr1, hlen1, hrun⟩ := utfScanLoop_run_ascii 65535 bArr [] (by decide) 65532
    (2 + 1) 0 0 cArr (by decide) (by omega)
    (fun i _ hi => ⟨0x61, hpre i (by omega), by decide⟩)
  obtain ⟨cArr2, _, hstep⟩ := utfScanLoop_step_two 65535 bArr [] 2 65532 65532 cArr1
    0xC2 0x80 (by decide) (by decide) (htail 0) (by decide) (htail 1) (by decide) (by omega)
  have hwrap := utfScanLoop_wrap_panic bArr [] 1 65533 cArr2 0xE0 hlen (htail 2) (by decide)
  simp only [Nat.reduceAdd] at hrun hstep hwrap
  rw [hrun, hstep, hwrap]

/-- C10, empty string: `WriteUTF("")` returns no error and appends exactly
the two bytes 00 00 to the sink, and `ReadUTF` on a source that starts with
00 00 returns no error and the empty string, leaving what follows. -/
theorem C10_empty_string (sink rest : List Nat) :
    WriteUTF [] sink = .ret none (sink ++ [0, 0]) ∧
    ReadUTF (0 :: 0 :: rest) = .ok [] rest := by
  constructor
  · have h := WriteUTF_ascii [] sink (fun b hb => absurd hb (List.not_mem_nil b)) (by decide)
    simpa using h
  · have h := ReadUTFRunes_of_body 0 0 [] rest 0 (by decide) rfl
    simp only [List.nil_append] at h
    simp [ReadUTF, h, utfScanLoop, stringOfRunes]

/-- C11, integer round trip: for every `uint16` `u`, `int16` `s`, `int32` `i`
and `int64` `l`, the read operation of the type on the bytes its write
operation wrote returns the value, with no error. -/
theorem C11_integer_roundtrip (u : Nat) (s i l : Int) (rest : List Nat)
    (hu : u < 65536) (hs : -32768 ≤ s ∧ s < 32768)
    (hi : -2147483648 ≤ i ∧ i < 2147483648)
    (hl : -9223372036854775808 ≤ l ∧ l < 9223372036854775808) :
    (∃ out, WriteUShort u [] = .ret none out ∧ ReadUShort (out ++ rest) = .ok u rest) ∧
    (∃ out, WriteShort bufWrite s [] = .ret none out ∧
      ReadShort ReadFull (out ++ rest) = .ok s rest) ∧
    (∃ out, WriteInt bufWrite i [] = .ret none out ∧
      ReadInt ReadFull (out ++ rest) = .ok i rest) ∧
    (∃ out, WriteLong bufWrite l [] = .ret none out ∧
      ReadLong ReadFull (out ++ rest) = .ok l rest) :=
  ⟨⟨_, rfl, ReadUShort_WriteUShort u rest hu⟩, ⟨_, rfl, ReadShort_WriteShort s rest hs⟩,
    ⟨_, rfl, ReadInt_WriteInt i rest hi⟩, ⟨_, rfl, ReadLong_WriteLong l rest hl⟩⟩

/-- Witness of C11 at 0xBEEF, -2, -2147483648 and 9223372036854775807. -/
theorem C11_integer_roundtrip_witness :
    ∃ out, WriteInt bufWrite (-2147483648) [] = .ret none out ∧
      ReadInt ReadFull (out ++ []) = .ok (-2147483648) [] :=
  (C11_integer_roundtrip 0xBEEF (-2) (-2147483648) 9223372036854775807 []
    (by decide) (by decide) (by decide) (by decide)).2.2.1

/-- C12, big-endian layout: `WriteUShort` and `WriteShort` write 2 bytes,
`WriteInt` 4 and `WriteLong` 8, byte `i` of `n` being the bits
`8*(n-1-i) .. 8*(n-i)-1` of the two's-complement pattern of the value;
`WriteShort(v)` writes the bytes `WriteUShort` writes for the pattern of `v`;
`ReadShort`, `ReadInt` and `ReadLong` return `int16`, `int32`, `int64` of what
`ReadUShort`, `ReadUInt`, `ReadULong` return, a value of the signed range with
the same pattern. -/
theorem C12_big_endian_layout (u : Nat) (s i l : Int) (sink src : List Nat) (v : Nat) :
    WriteUShort u sink = .ret none (sink ++ [u / 2 ^ 8 % 256, u % 256]) ∧
    WriteShort bufWrite s sink =
      .ret none (sink ++ [(s % 2 ^ 16).toNat / 2 ^ 8 % 256, (s % 2 ^ 16).toNat % 256]) ∧
    WriteShort bufWrite s sink = WriteUShort (s % 2 ^ 16).toNat sink ∧
    WriteInt bufWrite i sink =
      .ret none (sink ++ [(i % 2 ^ 32).toNat / 2 ^ 24 % 256, (i % 2 ^ 32).toNat / 2 ^ 16 % 256,
        (i % 2 ^ 32).toNat / 2 ^ 8 % 256, (i % 2 ^ 32).toNat % 256]) ∧
    WriteLong bufWrite l sink =
      .ret none (sink ++ [(l % 2 ^ 64).toNat / 2 ^ 56 % 256, (l % 2 ^ 64).toNat / 2 ^ 48 % 256,
        (l % 2 ^ 64).toNat / 2 ^ 40 % 256, (l % 2 ^ 64).toNat / 2 ^ 32 % 256,
        (l % 2 ^ 64).toNat / 2 ^ 24 % 256, (l % 2 ^ 64).toNat / 2 ^ 16 % 256,
        (l % 2 ^ 64).toNat / 2 ^ 8 % 256, (l % 2 ^ 64).toNat % 256]) ∧
    (ReadShort ReadFull src = (ReadUShort src).map int16 ∧
      ReadInt ReadFull src = (ReadUInt ReadFull src).map int32 ∧
      ReadLong ReadFull src = (ReadULong ReadFull src).map int64) ∧
    ((int16 v % 2 ^ 16).toNat = v % 2 ^ 16 ∧ -2 ^ 15 ≤ int16 v ∧ int16 v < 2 ^ 15) ∧
    ((int32 v % 2 ^ 32).toNat = v % 2 ^ 32 ∧ -2 ^ 31 ≤ int32 v ∧ int32 v < 2 ^ 31) ∧
    ((int64 v % 2 ^ 64).toNat = v % 2 ^ 64 ∧ -2 ^ 63 ≤ int64 v ∧ int64 v < 2 ^ 63) := by
  have hus : ∀ x : Nat,
      WriteUShort x sink = .ret none (sink ++ [x / 2 ^ 8 % 256, x % 256]) := by
    intro x
    simp only [WriteUShort, Nat.shiftRight_eq_div_pow, Nat.pow_zero, Nat.div_one]
  have hsh : WriteShort bufWrite s sink =
      .ret none (sink ++ [(s % 2 ^ 16).toNat / 2 ^ 8 % 256, (s % 2 ^ 16).toNat % 256]) := by
    simp only [WriteShort, bufWrite, shortBytes_eq]
  refine ⟨hus u, hsh, ?_, ?_, ?_, ⟨rfl, rfl, rfl⟩, ?_, ?_, ?_⟩
  · rw [hsh, hus]
  · simp only [WriteInt, bufWrite, intBytes_eq]
  · simp only [WriteLong, bufWrite, longBytes_eq]
  · unfold int16
    split <;> refine ⟨?_, ?_, ?_⟩ <;> omega
  · unfold int32
    split <;> refine ⟨?_, ?_, ?_⟩ <;> omega
  · unfold int64
    split <;> refine ⟨?_, ?_, ?_⟩ <;> omega

/-- C13, char wire format, evaluated at the code unit 0x0041: `WriteChar`
writes the bytes 41 00, low byte first (the claim has 00 41), and `ReadChar`
on those bytes returns 0x4100. -/
theorem C13_char_written_low_byte_first :
    WriteChar bufWrite 0x0041 [] = .ret none [0x41, 0x00] ∧
    ReadChar ReadFull [0x41, 0x00] = .ok 0x4100 [] := by
  decide

/-- C14, float and double as bit patterns. `F32`, `F64` stand for `float32`,
`float64`, and `bits32`, `frombits32`, `bits64`, `frombits64` for
`math.Float32bits`, `math.Float32frombits`, `math.Float64bits`,
`math.Float64frombits`, which give back the pattern a value was made from.
For a 32-bit pattern `b`, `WriteFloat` of the value with bits `b` writes the
four big-endian bytes of `b` and `ReadFloat` on them returns the value with
bits `b`; so the bits 0x7FC00000 give 7f c0 00 00 and the bits 0x4EFF8000
give 4e ff 80 00; the same for a 64-bit pattern `d`, `WriteDouble` and
`ReadDouble`. -/
theorem C14_float_bit_patterns {F32 F64 : Type} (bits32 : F32 → Nat) (frombits32 : Nat → F32)
    (bits64 : F64 → Nat) (frombits64 : Nat → F64) (b d : Nat) (sink rest : List Nat)
    (h32 : ∀ x, x < 2 ^ 32 → bits32 (frombits32 x) = x)
    (h64 : ∀ x, x < 2 ^ 64 → bits64 (frombits64 x) = x)
    (hb : b < 2 ^ 32) (hd : d < 2 ^ 64) :
    WriteFloat bits32 bufWrite (frombits32 b) sink =
      .ret none (sink ++ [(b >>> 24) % 256, (b >>> 16) % 256, (b >>> 8) % 256, b % 256]) ∧
    ReadFloat frombits32 ReadFull
      ([(b >>> 24) % 256, (b >>> 16) % 256, (b >>> 8) % 256, b % 256] ++ rest) =
      .ok (frombits32 b) rest ∧
    WriteFloat bits32 bufWrite (frombits32 0x7FC00000) [] = .ret none [0x7f, 0xc0, 0x00, 0x00] ∧
    WriteFloat bits32 bufWrite (frombits32 0x4EFF8000) [] = .ret none [0x4e, 0xff, 0x80, 0x00] ∧
    WriteDouble bits64 bufWrite (frombits64 d) sink =
      .ret none (sink ++ [(d >>> 56) % 256, (d >>> 48) % 256, (d >>> 40) % 256,
        (d >>> 32) % 256, (d >>> 24) % 256, (d >>> 16) % 256, (d >>> 8) % 256, d % 256]) ∧
    ReadDouble frombits64 ReadFull
      ([(d >>> 56) % 256, (d >>> 48) % 256, (d >>> 40) % 256, (d >>> 32) % 256,
        (d >>> 24) % 256, (d >>> 16) % 256, (d >>> 8) % 256, d % 256] ++ rest) =
      .ok (frombits64 d) rest := by
  have hw : ∀ x, x < 2 ^ 32 → ∀ k, WriteFloat bits32 bufWrite (frombits32 x) k =
      .ret none (k ++ [(x >>> 24) % 256, (x >>> 16) % 256, (x >>> 8) % 256, x % 256]) := by
    intro x hx k
    simp only [WriteFloat, bufWrite, h32 x hx, Nat.shiftRight_zero]
  refine ⟨hw b hb sink, ?_, ?_, ?_, ?_, ?_⟩
  · simp only [List.cons_append, List.nil_append, ReadFloat, ReadUInt_cons,
      Nat.shiftRight_eq_div_pow]
    rw [be32_of_pattern b hb]
    rfl
  · rw [hw _ (by decide)]
    decide
  · rw [hw _ (by decide)]
    decide
  · simp only [WriteDouble, bufWrite, h64 d hd, Nat.shiftRight_zero]
  · simp only [List.cons_append, List.nil_append, ReadDouble, ReadULong_cons,
      Nat.shiftRight_eq_div_pow]
    rw [be64_of_pattern d hd]
    rfl

/-- Witness of C14 with a value represented by its pattern, at the NaN
patterns 0x7FC00000 and 0x7FF8000000000001. -/
theorem C14_float_bit_patterns_witness :
    WriteFloat (fun x : Nat => x) bufWrite 0x7FC00000 [] = .ret none [0x7f, 0xc0, 0x00, 0x00] :=
  (C14_float_bit_patterns (fun x : Nat => x) (fun x : Nat => x) (fun x : Nat => x)
    (fun x : Nat => x) 0x7FC00000 0x7FF8000000000001 [] [] (fun _ _ => rfl) (fun _ _ => rfl)
    (by decide) (by decide)).2.2.1

/-- C15, boolean: `WriteBoolean(true)` writes the one byte 01 and
`WriteBoolean(false)` the one byte 00; `ReadBoolean` returns false on the byte
00 and true on every byte `b` in 1..255; so `ReadBoolean` on the byte written
by `WriteBoolean(v)` returns `v`. -/
theorem C15_boolean (b : Nat) (v : Bool) (sink rest : List Nat) (hb : 1 ≤ b ∧ b ≤ 255) :
    WriteBoolean bufWrite true sink = .ret none (sink ++ [1]) ∧
    WriteBoolean bufWrite false sink = .ret none (sink ++ [0]) ∧
    ReadBoolean ReadFull (0 :: rest) = .ok false rest ∧
    ReadBoolean ReadFull (b :: rest) = .ok true rest ∧
    (∃ out, WriteBoolean bufWrite v [] = .ret none out ∧
      ReadBoolean ReadFull (out ++ rest) = .ok v rest) := by
  have hr : ∀ x : Nat, ReadBoolean ReadFull (x :: rest) = .ok (decide (x ≠ 0)) rest := by
    intro x
    have h := ReadFull_append [x] rest
    simp only [List.length_singleton, List.singleton_append] at h
    simp only [ReadBoolean, h, Outcome.map, List.getD_cons_zero]
  refine ⟨rfl, rfl, ?_, ?_, ?_⟩
  · rw [hr]; rfl
  · rw [hr]
    have : b ≠ 0 := by omega
    simp [this]
  · cases v
    · exact ⟨[0], rfl, by rw [List.singleton_append, hr]; rfl⟩
    · exact ⟨[1], rfl, by rw [List.singleton_append, hr]; rfl⟩

/-- Witness of C15 at the byte 0xFF and the value true. -/
theorem C15_boolean_witness :
    ReadBoolean ReadFull [0xFF] = .ok true [] :=
  (C15_boolean 0xFF true [] [] (by decide)).2.2.2.1

/-- C16, short read: on a buffer that ends before the bytes asked for (1 for
`ReadByte`, `ReadBoolean`; 2 for `ReadUShort`, `ReadShort`, `ReadChar`; 4 for
`ReadUInt`, `ReadInt`, `ReadFloat`; 8 for `ReadULong`, `ReadLong`,
`ReadDouble`) the operation returns an error and no value; `ReadUTF` returns
an error when the buffer ends before the two bytes of the prefix or before
the body bytes the prefix announces. -/
theorem C16_short_read {F32 F64 : Type} (frombits32 : Nat → F32) (frombits64 : Nat → F64)
    (s1 s2 s4 s8 body : List Nat) (hi lo : Nat)
    (h1 : s1.length < 1) (h2 : s2.length < 2) (h4 : s4.length < 4) (h8 : s8.length < 8)
    (hbody : body.length < (lo ||| (hi <<< 8)) % 65536) :
    ((∃ e, ReadByte ReadFull s1 = .error e) ∧ (∃ e, ReadBoolean ReadFull s1 = .error e)) ∧
    ((∃ e, ReadUShort s2 = .error e) ∧ (∃ e, ReadShort ReadFull s2 = .error e) ∧
      (∃ e, ReadChar ReadFull s2 = .error e)) ∧
    ((∃ e, ReadUInt ReadFull s4 = .error e) ∧ (∃ e, ReadInt ReadFull s4 = .error e) ∧
      (∃ e, ReadFloat frombits32 ReadFull s4 = .error e)) ∧
    ((∃ e, ReadULong ReadFull s8 = .error e) ∧ (∃ e, ReadLong ReadFull s8 = .error e) ∧
      (∃ e, ReadDouble frombits64 ReadFull s8 = .error e)) ∧
    (∃ e, ReadUTF s2 = .error e) ∧
    (∃ e, ReadUTF (hi :: lo :: body) = .error e) := by
  obtain ⟨e1, he1⟩ := ReadFull_short s1 1 h1
  obtain ⟨e2, he2⟩ := ReadFull_short s2 2 h2
  obtain ⟨e4, he4⟩ := ReadFull_short s4 4 h4
  obtain ⟨e8, he8⟩ := ReadFull_short s8 8 h8
  obtain ⟨eb, heb⟩ := ReadFull_short body _ hbody
  have hus : ReadUShort s2 = .error (.readUShortFailed e2) := ReadUShortFrom_error ReadFull s2 he2
  have hus1 : ReadUShortFrom ReadFull s2 = .error (.readUShortFailed e2) := hus
  have hui : ReadUInt ReadFull s4 = .error e4 := Outcome.map_error _ he4
  have hul : ReadULong ReadFull s8 = .error e8 := Outcome.map_error _ he8
  refine ⟨⟨⟨e1, Outcome.map_error _ he1⟩, ⟨e1, Outcome.map_error _ he1⟩⟩,
    ⟨⟨_, hus⟩, ⟨_, Outcome.map_error _ hus1⟩, ⟨_, Outcome.map_error _ hus1⟩⟩,
    ⟨⟨e4, hui⟩, ⟨e4, Outcome.map_error _ hui⟩, ⟨e4, Outcome.map_error _ hui⟩⟩,
    ⟨⟨e8, hul⟩, ⟨e8, Outcome.map_error _ hul⟩, ⟨e8, Outcome.map_error _ hul⟩⟩,
    ⟨.readUShortFailed e2, ?_⟩, ⟨eb, ?_⟩⟩
  · simp only [ReadUTF, ReadUTFRunes, hus]
  · simp only [ReadUTF, ReadUTFRunes, ReadUShort_cons_cons, heb]

/-- Witness of C16: the empty buffer, buffers one byte short, and a text
whose prefix announces three bytes where two follow. -/
theorem C16_short_read_witness :
    (∃ e, ReadULong ReadFull [1, 2, 3, 4, 5, 6, 7] = .error e) ∧
    (∃ e, ReadUTF [0, 3, 0x61, 0x62] = .error e) :=
  have h := C16_short_read (fun b : Nat => b) (fun b : Nat => b) [] [1] [1, 2, 3]
    [1, 2, 3, 4, 5, 6, 7] [0x61, 0x62] 0 3 (by decide) (by decide) (by decide) (by decide)
    (by decide)
  ⟨h.2.2.2.1.1, h.2.2.2.2.2⟩

/-- C17, underlying failures propagated unchanged, evaluated on a source
that fails with the error value `underlying 7`: `ReadUShort` returns that
value wrapped by `fmt.Errorf("r.ReadUShort failed with: %w", err)`, not the
value itself, and so do `ReadShort`, `ReadChar` and `ReadUTF`, which call it;
the sibling `ReadUInt` on the same source returns the value unchanged. -/
theorem C17_ReadUShort_wraps_the_error :
    ReadFullFailing (.underlying 7) [] 2 = .error (.underlying 7) ∧
    ReadUShortFrom (ReadFullFailing (.underlying 7)) [] =
      .error (.readUShortFailed (.underlying 7)) ∧
    ReadUShortFrom (ReadFullFailing (.underlying 7)) [] ≠ .error (.underlying 7) ∧
    ReadShort (ReadFullFailing (.underlying 7)) [] =
      .error (.readUShortFailed (.underlying 7)) ∧
    ReadChar (ReadFullFailing (.underlying 7)) [] =
      .error (.readUShortFailed (.underlying 7)) ∧
    ReadUTFFrom (ReadFullFailing (.underlying 7)) [] =
      .error (.readUShortFailed (.underlying 7)) ∧
    ReadUInt (ReadFullFailing (.underlying 7)) [] = .error (.underlying 7) := by
  decide

/-- C18, decoder buffer sizing and index safety, evaluated: for the prefix
21846 the rune slice has `uint16(21846*3) = 2` entries, and `ReadUTF` on 21846
letters 'A' panics on it; on the body of 65535 bytes made of 65533 letters
'A', the three-byte lead 0xE0 and the byte 0x80, `count += 3` wraps around to
0 and `ReadUTF` panics on `bArr[count-1]`. -/
theorem C18_slice_too_small_and_counter_wraps :
    (21846 * 3) % 65536 = 2 ∧
    ReadUTF (0x55 :: 0x56 :: List.replicate 21846 0x41) = .panic ∧
    ReadUTF (0xFF :: 0xFF :: (List.replicate 65533 0x41 ++ [0xE0, 0x80])) = .panic := by
  refine ⟨by decide, ?_, ?_⟩
  · apply ReadUTF_of_panic
    have h := ReadUTFRunes_panic_ascii 0x55 0x56 (List.replicate 21846 0x41) [] 21846
      (by decide) (List.length_replicate _ _) (by decide)
      (fun i hi => ⟨0x41, List.getElem?_replicate_of_lt (by omega), by decide⟩)
    rw [List.append_nil] at h
    exact h
  · apply ReadUTF_of_panic
    have hlen : (List.replicate 65533 0x41 ++ [0xE0, 0x80]).length = 65535 := by
      rw [List.length_append, List.length_replicate]; rfl
    have hbody := ReadUTFRunes_of_body 0xFF 0xFF
      (List.replicate 65533 0x41 ++ [0xE0, 0x80]) [] 65535 (by decide) hlen
    rw [List.append_nil] at hbody
    rw [hbody]
    generalize hbdef : List.replicate 65533 0x41 ++ [0xE0, 0x80] = bArr at hlen
    generalize hcdef : List.replicate (65535 * 3 % 65536) 0 = cArr
    have hclen : cArr.length = 65533 := by rw [← hcdef, List.length_replicate]
    have hpre : ∀ i, i < 65533 → bArr[i]? = some 0x41 := by
      intro i hi
      rw [← hbdef, List.getElem?_append_left (by rw [List.length_replicate]; exact hi),
        List.getElem?_replicate_of_lt hi]
    have hlead : bArr[65533]? = some 0xE0 := by
      rw [← hbdef, List.getElem?_append_right (by rw [List.length_replicate]),
        List.length_replicate, Nat.sub_self]
      rfl
    obtain ⟨cArr1, _, hrun⟩ := utfScanLoop_run_ascii 65535 bArr [] (by decide) 65533
      (1 + 1) 0 0 cArr (by decide) (by omega)
      (fun i _ hi => ⟨0x41, hpre i (by omega), by decide⟩)
    have hwrap := utfScanLoop_wrap_panic_three bArr [] 1 65533 cArr1 0xE0 hlen hlead
      (by decide)
    simp only [Nat.reduceAdd] at hrun hwrap
    rw [hrun, hwrap]

/-- C19, text framing: when `WriteUTF` returns no error, what it appended to
the sink is two bytes `hi`, `lo` and a body, the big-endian value
`hi * 256 + lo` is the number of body bytes, it is at most 65535, `2 + L`
bytes were written in all, and `ReadUShort` on the bytes written returns that
`L` and leaves the body. -/
theorem C19_text_framing (s sink out : List Nat) (h : WriteUTF s sink = .ret none out) :
    ∃ hi lo body, out = sink ++ hi :: lo :: body ∧ hi < 256 ∧ lo < 256 ∧
      hi * 256 + lo = body.length ∧ body.length ≤ 65535 ∧
      out.length = sink.length + (2 + body.length) ∧
      ReadUShort (hi :: lo :: body) = .ok body.length body := by
  obtain ⟨hlen, body, hb, hout⟩ := WriteUTF_ok_shape s sink out h
  refine ⟨(s.length >>> 8) % 256, s.length % 256, body, ?_, Nat.mod_lt _ (by decide),
    Nat.mod_lt _ (by decide), ?_, by omega, ?_, ?_⟩
  · rw [hout]
    simp only [List.append_assoc, List.cons_append, List.nil_append]
  · rw [Nat.shiftRight_eq_div_pow, hb]
    omega
  · rw [hout]
    simp only [List.length_append, List.length_cons, List.length_nil]
    omega
  · rw [ReadUShort_cons_cons, be16_of_length s.length hlen, hb]

/-- Witness of C19 at the string "Hi". -/
theorem C19_text_framing_witness :
    ∃ hi lo body, [0, 2, 0x48, 0x69] = [] ++ hi :: lo :: body ∧ hi < 256 ∧ lo < 256 ∧
      hi * 256 + lo = body.length ∧ body.length ≤ 65535 ∧
      [0, 2, 0x48, 0x69].length = ([] : List Nat).length + (2 + body.length) ∧
      ReadUShort (hi :: lo :: body) = .ok body.length body :=
  C19_text_framing [0x48, 0x69] [] [0, 2, 0x48, 0x69] (by decide)

/-- C20, short ASCII texts: for a string of characters 1..0x7F of at most
21845 bytes, `WriteUTF` appends the two big-endian bytes of `len(s)` and the
bytes of `s` unchanged, and `ReadUTF` on those bytes returns no error and
`s`. -/
theorem C20_short_ascii_roundtrip (s sink rest : List Nat)
    (hs : ∀ b ∈ s, 1 ≤ b ∧ b ≤ 0x7F) (hlen : s.length ≤ 21845) :
    WriteUTF s sink = .ret none (sink ++ [(s.length >>> 8) % 256, s.length % 256] ++ s) ∧
    ReadUTF ([(s.length >>> 8) % 256, s.length % 256] ++ s ++ rest) = .ok s rest := by
  constructor
  · exact WriteUTF_ascii s sink (fun b hb => by have := hs b hb; omega) (by omega)
  · have hmod : (s.length * 3) % 65536 = s.length * 3 := Nat.mod_eq_of_lt (by omega)
    have h := ReadUTF_ascii s rest (fun b hb => by have := hs b hb; omega) (by omega)
      (by rw [hmod]; omega)
    simpa only [List.append_assoc, List.cons_append, List.nil_append] using h

/-- Witness of C20 at the string "Hello World" of the tests. -/
theorem C20_short_ascii_roundtrip_witness :
    WriteUTF [72, 101, 108, 108, 111, 32, 87, 111, 114, 108, 100] [] =
      .ret none [0, 11, 72, 101, 108, 108, 111, 32, 87, 111, 114, 108, 100] ∧
    ReadUTF [0, 11, 72, 101, 108, 108, 111, 32, 87, 111, 114, 108, 100] =
      .ok [72, 101, 108, 108, 111, 32, 87, 111, 114, 108, 100] [] :=
  C20_short_ascii_roundtrip [72, 101, 108, 108, 111, 32, 87, 111, 114, 108, 100] [] []
    (by decide) (by decide)

end JavaDataStream
